import Mathlib

/-!
# A verification development for `ariefrahmansyah/crawler`

Shallow embedding of `crawler.go` and `site.go`.

Modelling conventions.

* Go `string` is Lean `String`.  Go compares and searches strings byte-wise; on
  well-formed UTF-8 text byte-wise lexicographic order and byte-wise substring
  search agree with the code-point versions used here.
* Go `int` is `Int` (no arithmetic in the code can overflow except `depth+1`,
  which is bounded by `MaxDepth`).
* A Go pair `(T, error)` returned by a function of this package is a Lean pair
  `T × Option String` (`none` is the `nil` error).  Results of the libraries the
  package calls are `Except String T`.
* The libraries the package calls (`govalidator`, `net/url` parsing,
  `net/http`, `html`/`scrape`, `href`) are fields of an environment `Env`.
* Pointers: `*url.URL` is a `URL` value; the one place where the code writes
  through the pointer (`Fetch` sets `Scheme`) returns the updated value.
* Concurrency: the goroutines that `Crawl` starts for the links of one page are
  run one after the other, each to completion, in an order chosen by the
  environment (`Env.mapOrder`, an arbitrary permutation of the map's entries
  that may depend on everything that happened so far).  Interleavings in which
  two goroutines overlap are outside this embedding.
* `sort.Sort` of the Go library is the insertion sort of the `sort` package on
  slices of at most 6 elements, which is what every Go release runs there; on
  longer slices the algorithm depends on the release and is a parameter
  (`LongSort`, a field of `Env`) of which only the contract of `sort.Sort` is
  known: a sorted permutation, with nothing said about equal keys.
* `Crawler.history` is a ghost field: the list of the observable effects
  performed so far (HTTP GET, link extraction, start of a child traversal).
-/

namespace crawler

/-! ## Go library types -/

/-- The fields of `net/url.URL` that the package reads or writes. -/
structure URL where
  Scheme : String
  Host : String
  Path : String
deriving DecidableEq, Inhabited

/-- Go method `(*url.URL).String` restricted to `Scheme`, `Host` and `Path` (no opaque
part, user info, query or fragment; no character needs escaping). -/
def URL.String (u : URL) : String :=
  let buf := if u.Scheme ≠ "" then u.Scheme ++ ":" else ""
  let buf :=
    if u.Scheme ≠ "" ∨ u.Host ≠ "" then
      (if u.Host ≠ "" ∨ u.Path ≠ "" then buf ++ "//" else buf) ++ u.Host
    else buf
  let buf :=
    if u.Path ≠ "" ∧ u.Path.data.head? ≠ some '/' ∧ u.Host ≠ "" then buf ++ "/" else buf
  let buf :=
    if buf = "" ∧ ':' ∈ u.Path.data.takeWhile (fun c => c ≠ '/') then buf ++ "./" else buf
  buf ++ u.Path

/-- The value `href.Link` of the link-resolver library. -/
structure Link where
  URL : URL
  Text : String
  HREF : String
  Depth : Int
deriving DecidableEq, Inhabited

/-- The zero value `href.Link{}`. -/
def Link.zero : Link := ⟨⟨"", "", ""⟩, "", "", 0⟩

/-- The part of `http.Response` that the package reads. -/
structure Response where
  Status : String
  StatusCode : Int
  Header : List (String × List String)
  Body : String
deriving DecidableEq, Inhabited

/-- Go `http.Header.Get`: the first value stored under the key, or `""`. -/
def headerGet (h : List (String × List String)) (key : String) : String :=
  match h.lookup key with
  | some (v :: _) => v
  | _ => ""

/-- Go `strings.Contains` on the characters of the two strings. -/
def containsChars : List Char → List Char → Bool
  | [], substr => substr.isEmpty
  | c :: cs, substr => substr.isPrefixOf (c :: cs) || containsChars cs substr

/-- Go `strings.Contains(s, substr)`. -/
def stringsContains (s substr : String) : Bool := containsChars s.data substr.data

/-- An anchor element found by `scrape.FindAll(root, scrape.ByTag(atom.A))`,
given by `scrape.Text(anchor)` and `scrape.Attr(anchor, "href")`. -/
structure Anchor where
  Text : String
  Href : String
deriving DecidableEq, Inhabited

/-! ## Go maps with string keys -/

/-- Lookup `m[k]` with the comma-ok result. -/
def mapGet {V : Type} (m : List (String × V)) (k : String) : Option V := m.lookup k

/-- Assignment `m[k] = v`: overwrite the entry of `k`, or add one. -/
def mapSet {V : Type} : List (String × V) → String → V → List (String × V)
  | [], k, v => [(k, v)]
  | (k0, v0) :: m, k, v => if k0 = k then (k, v) :: m else (k0, v0) :: mapSet m k v

/-! ## site.go -/

/-- Go `type Site struct { mutex *sync.Mutex; Data href.Link; Sites []Site }`.
The field `mutex` records whether the pointer is non-nil. -/
inductive Site where
  | mk (mutex : Bool) (Data : Link) (Sites : List Site)

namespace Site

def mutex : Site → Bool
  | mk m _ _ => m

def Data : Site → Link
  | mk _ d _ => d

def Sites : Site → List Site
  | mk _ _ s => s

/-- The zero value `Site{}`. -/
def zero : Site := mk false Link.zero []

instance : Inhabited Site := ⟨zero⟩

/-- The assignment `s.Data = link`. -/
def setData (s : Site) (link : Link) : Site := mk s.mutex link s.Sites

/-- The assignment `site.Sites = sites`. -/
def setSites (s : Site) (sites : List Site) : Site := mk s.mutex s.Data sites

/-- Go `func (site *Site) AppendSite(s Site)`, for a receiver whose mutex is
allocated (as it is at the only call site, in `Crawl`); the lock is held only
around the append. -/
def AppendSite (site : Site) (s : Site) : Site := site.setSites (site.Sites ++ [s])

end Site

namespace SitesSorter

/-- Go `func (sites SitesSorter) Len() int`. -/
def Len (sites : List Site) : Nat := sites.length

/-- Go `func (sites SitesSorter) Swap(i, j int)`. -/
def Swap (sites : List Site) (i j : Nat) : List Site :=
  (sites.set i (sites.getD j default)).set j (sites.getD i default)

/-- Go `func (sites SitesSorter) Less(i, j int) bool`. -/
def Less (sites : List Site) (i j : Nat) : Bool :=
  decide ((sites.getD i default).Data.Text < (sites.getD j default).Data.Text)

end SitesSorter

/-- The inner loop of Go's `insertionSort(data, 0, b)`:
`for j := i; j > 0 && data.Less(j, j-1); j-- { data.Swap(j, j-1) }`. -/
def insertionInner (data : List Site) : Nat → List Site
  | 0 => data
  | j + 1 =>
    if SitesSorter.Less data (j + 1) j then insertionInner (SitesSorter.Swap data (j + 1) j) j
    else data

/-- The outer loop `for i := a + 1; i < b; i++` with `remaining = b - i`. -/
def insertionOuter (data : List Site) (i : Nat) : Nat → List Site
  | 0 => data
  | remaining + 1 => insertionOuter (insertionInner data i) (i + 1) remaining

/-- Go's `insertionSort(data, 0, data.Len())` of the `sort` package. -/
def insertionSort (data : List Site) : List Site :=
  insertionOuter data 1 (SitesSorter.Len data - 1)

/-- What Go's `sort.Sort` does with a slice of more than 6 elements.  The
algorithm depends on the Go release (a shell pass followed by insertion sort,
quicksort with heapsort, pattern-defeating quicksort) and none of them is
stable, so only the documented contract of `sort.Sort` is recorded: the result
is a reordering of the slice in which no element is `Less` than an earlier one.
Nothing is said about the order of elements with equal `Data.Text`. -/
structure LongSort where
  sort : List Site → List Site
  perm : ∀ l : List Site, (sort l).Perm l
  sorted : ∀ l : List Site, List.Sorted (fun a b => a.Data.Text ≤ b.Data.Text) (sort l)

/-- Go `sort.Sort(data)` of the Go library, driven through `Len`, `Less` and
`Swap`.  Every Go release sorts a slice of at most 6 elements by exactly the
insertion sort above (before Go 1.19 a shell pass with gap 6 comes first, which
does nothing on so short a slice; since Go 1.19 the insertion sort is used up to
12 elements).  Longer slices are sorted by the release's algorithm `lib`. -/
def sortSort (lib : LongSort) (data : List Site) : List Site :=
  if SitesSorter.Len data ≤ 6 then insertionSort data else lib.sort data

/-- Go `func SortSites(sites []Site)`; the sorted slice is returned. -/
def SortSites (lib : LongSort) (sites : List Site) : List Site := sortSort lib sites

/-! ## crawler.go -/

def defaultMaxDepth : Int := 2

/-- Go `type CrawlQuery struct`. -/
structure CrawlQuery where
  Site : String
  MaxDepth : Int
  Timeout : Int
deriving DecidableEq, Inhabited

/-- Ghost record of an observable effect. -/
inductive Event where
  | get (url : String)
  | extract (url : String)
  | spawn (site : String) (depth : Int)
deriving DecidableEq

/-- Go `type Crawler struct`: the visited cache, and the ghost history of effects
(the HTTP client and the mutex carry no data). -/
structure Crawler where
  visitedSite : List (String × Site)
  history : List Event

/-- The libraries and the outside world that the package calls. -/
structure Env where
  /-- Go `govalidator.ValidateStruct(query)`, as a function of `query.Site`: by
  the struct tags of `CrawlQuery` (`valid:"url,required"` on `Site`, `valid:"-"`
  on `MaxDepth` and `Timeout`) no other field is looked at. -/
  ValidateStruct : String → Bool × Option String
  /-- Go `url.Parse`. -/
  urlParse : String → Except String URL
  /-- Go `httpClient.Get`. -/
  httpGet : String → Except String Response
  /-- Go `html.Parse(resp.Body)` followed by `scrape.FindAll`: the anchors of the
  page in document order. -/
  htmlAnchors : String → Except String (List Anchor)
  /-- Go `href.NewLink(ctx, parent, text, href, depth)`. -/
  NewLink : URL → String → String → Int → Link
  /-- Go `link.IsValidPageLink(ctx)`. -/
  IsValidPageLink : Link → Bool
  /-- Go `href.IsSameDomain(parent, child)`. -/
  IsSameDomain : URL → URL → Bool
  /-- The order in which `range links` yields the entries of the map and in
  which the goroutines started for them run. -/
  mapOrder : List Event → List (String × Link) → List (String × Link)
  mapOrder_perm : ∀ (h : List Event) (l : List (String × Link)), (mapOrder h l).Perm l
  /-- The algorithm of `sort.Sort` for long slices in the Go release in use. -/
  sortLong : LongSort

/-- Go `func NewCrawler(ctx, opt) *Crawler`. -/
def NewCrawler : Crawler := { visitedSite := [], history := [] }

/-- Go `func (crawler *Crawler) Validate(ctx, query) (bool, error)`. -/
def Validate (w : Env) (query : CrawlQuery) : Bool × Option String :=
  match (w.ValidateStruct query.Site).2 with
  | some err => (false, some err)
  | none => (true, none)

/-- Go `func (crawler *Crawler) Fetch(ctx, siteURL) (*http.Response, error)`.
The URL behind the pointer is returned as well: `Fetch` overwrites an empty
`Scheme`. -/
def Fetch (w : Env) (crawler : Crawler) (siteURL : URL) :
    Crawler × URL × Except String Response :=
  let siteURL := if siteURL.Scheme = "" then { siteURL with Scheme := "http" } else siteURL
  let crawler := { crawler with history := crawler.history ++ [Event.get siteURL.String] }
  match w.httpGet siteURL.String with
  | .error err => (crawler, siteURL, .error ("Failed to get page. " ++ err))
  | .ok resp =>
    if resp.StatusCode > 200 then
      (crawler, siteURL, .error "Failed to get page. Response status code")
    else (crawler, siteURL, .ok resp)

/-- Go `func (crawler *Crawler) GetSiteFromCache(ctx, siteURL) (Site, error)`. -/
def GetSiteFromCache (crawler : Crawler) (siteURL : URL) : Site × Option String :=
  match mapGet crawler.visitedSite siteURL.String with
  | some visited => (visited, none)
  | none => (Site.zero, some ("Page is not cached yet " ++ siteURL.String))

/-- Go `func (crawler *Crawler) PutSiteToCache(ctx, siteURL, site) error`. -/
def PutSiteToCache (crawler : Crawler) (siteURL : URL) (site : Site) :
    Crawler × Option String :=
  ({ crawler with visitedSite := mapSet crawler.visitedSite siteURL.String site }, none)

/-- Go `func (crawler Crawler) IsWebpage(ctx, resp) bool`. -/
def IsWebpage (resp : Response) : Bool :=
  let contentType := headerGet resp.Header "Content-Type"
  contentType == "text/html" || stringsContains contentType "text/html"

/-- The body of the loop over the anchors in `GetLinks`. -/
def getLinksStep (w : Env) (siteURL : URL) (depth : Int)
    (links : List (String × Link)) (anchor : Anchor) : List (String × Link) :=
  let aText := anchor.Text
  if aText = "" then links
  else
    let aHref := anchor.Href
    if aHref = "" then links
    else
      let link := w.NewLink siteURL aText aHref depth
      if w.IsValidPageLink link then
        if w.IsSameDomain siteURL link.URL then mapSet links link.URL.String link
        else links
      else links

/-- Go `func (crawler Crawler) GetLinks(ctx, siteURL, resp, depth)
(map[string]href.Link, error)`. -/
def GetLinks (w : Env) (siteURL : URL) (resp : Response) (depth : Int) :
    Except String (List (String × Link)) :=
  match w.htmlAnchors resp.Body with
  | .error err => .error err
  | .ok anchors => .ok (anchors.foldl (getLinksStep w siteURL depth) [])

/-- The first statement of `Crawl`:
`if query.MaxDepth == 0 { query.MaxDepth = defaultMaxDepth }`. -/
def withDefaultDepth (query : CrawlQuery) : CrawlQuery :=
  if query.MaxDepth = 0 then { query with MaxDepth := defaultMaxDepth } else query

/-- What one call of `Crawl` yields: the crawler afterwards, and the pair
`(Site, error)`. -/
abbrev Out := Crawler × Site × Option String

/-- The goroutine that `Crawl` starts for one link; `recCrawl` is the recursive
call. -/
def crawlChild (recCrawl : Crawler → CrawlQuery → Int → Option Out)
    (query : CrawlQuery) (depth : Int) (acc : Crawler × Site) (link : Link) :
    Option (Crawler × Site) :=
  let linkQuery : CrawlQuery := { Site := link.URL.String, MaxDepth := query.MaxDepth, Timeout := 0 }
  let started : Crawler :=
    { acc.1 with history := acc.1.history ++ [Event.spawn linkQuery.Site (depth + 1)] }
  match recCrawl started linkQuery (depth + 1) with
  | none => none
  | some (crawler, _, some _) => some (crawler, acc.2)
  | some (crawler, s, none) => some (crawler, acc.2.AppendSite (s.setData link))

/-- The loop `for _, link := range links { go ... }` followed by `wg.Wait()`. -/
def crawlChildren (recCrawl : Crawler → CrawlQuery → Int → Option Out)
    (query : CrawlQuery) (depth : Int) (crawler : Crawler) (site : Site)
    (links : List Link) : Option (Crawler × Site) :=
  links.foldlM (crawlChild recCrawl query depth) (crawler, site)

/-- The second half of the body of `Crawl`, from `IsWebpage` on: what `Crawl`
does with the response of a successful `Fetch`.  Here `query` is the query
after the defaulting of `MaxDepth`, and `crawler` and `siteURL` are as `Fetch`
left them. -/
def crawlPage (w : Env) (recCrawl : Crawler → CrawlQuery → Int → Option Out)
    (query : CrawlQuery) (depth : Int) (crawler : Crawler) (siteURL : URL) (resp : Response) :
    Option Out :=
  if !IsWebpage resp then some (crawler, Site.zero, none)
  else
    let crawler : Crawler :=
      { crawler with history := crawler.history ++ [Event.extract siteURL.String] }
    match GetLinks w siteURL resp (depth + 1) with
    | .error err => some (crawler, Site.zero, some ("Failed to get links. " ++ err))
    | .ok links =>
      let site := Site.mk true (w.NewLink siteURL "" siteURL.String depth) []
      let scheduled := (w.mapOrder crawler.history links).map Prod.snd
      match crawlChildren recCrawl query depth crawler site scheduled with
      | none => none
      | some (crawler, site) =>
        let site := site.setSites (sortSort w.sortLong site.Sites)
        let crawler := (PutSiteToCache crawler siteURL site).1
        some (crawler, site, none)

/-- The body of `func (crawler *Crawler) Crawl(ctx, query, depth) (Site, error)`
with the recursive call as a parameter. -/
def crawlBody (w : Env) (recCrawl : Crawler → CrawlQuery → Int → Option Out)
    (crawler : Crawler) (query : CrawlQuery) (depth : Int) : Option Out :=
  let query := withDefaultDepth query
  if depth ≥ query.MaxDepth then some (crawler, Site.zero, none)
  else
    match Validate w query with
    | (false, some err) => some (crawler, Site.zero, some ("Query is not valid. " ++ err))
    | _ =>
      match w.urlParse query.Site with
      | .error err => some (crawler, Site.zero, some ("Failed to parse URL. " ++ err))
      | .ok siteURL =>
        match GetSiteFromCache crawler siteURL with
        | (visited, none) => some (crawler, visited, none)
        | (_, some _) =>
          match Fetch w crawler siteURL with
          | (crawler, _, .error err) =>
            some (crawler, Site.zero, some ("Failed to fetch page. " ++ err))
          | (crawler, siteURL, .ok resp) => crawlPage w recCrawl query depth crawler siteURL resp

/-- Function `Crawl` with a bound on the nesting of recursive calls; `none` when the
bound is exhausted. -/
def crawlFuel (w : Env) : Nat → Crawler → CrawlQuery → Int → Option Out
  | 0 => fun _ _ _ => none
  | fuel + 1 => crawlBody w (crawlFuel w fuel)

/-- The depth bound in force: `query.MaxDepth`, or `defaultMaxDepth` when that
is zero. -/
def effectiveMaxDepth (query : CrawlQuery) : Int :=
  if query.MaxDepth = 0 then defaultMaxDepth else query.MaxDepth

/-- Go `Crawl(ctx, query, depth)`: the nesting of recursive calls is at most
`effectiveMaxDepth query - depth`, which is the bound given to `crawlFuel`. -/
def Crawl (w : Env) (crawler : Crawler) (query : CrawlQuery) (depth : Int) : Option Out :=
  crawlFuel w ((effectiveMaxDepth query - depth).toNat + 1) crawler query depth

/-! ## Definitions used to state the properties -/

/-- The link that `GetLinks` builds for an anchor. -/
def anchorLink (w : Env) (siteURL : URL) (depth : Int) (a : Anchor) : Link :=
  w.NewLink siteURL a.Text a.Href depth

/-- The anchors that the specification of `GetLinks` keeps: non-empty text,
non-empty href, a valid page link, in the domain of the page. -/
def anchorKept (w : Env) (siteURL : URL) (depth : Int) (a : Anchor) : Bool :=
  decide (a.Text ≠ "") && decide (a.Href ≠ "") && w.IsValidPageLink (anchorLink w siteURL depth a)
    && w.IsSameDomain siteURL (anchorLink w siteURL depth a).URL

/-- The link of the last kept anchor, in document order, that resolves to `k`. -/
def lastKeptLink (w : Env) (siteURL : URL) (depth : Int) (anchors : List Anchor) (k : String) :
    Option Link :=
  (((anchors.filter (anchorKept w siteURL depth)).map (anchorLink w siteURL depth)).reverse).find?
    (fun l => decide (l.URL.String = k))

/-- The calls `parent.AppendSite(s)` for the children `s` in the given order. -/
def appendAll (parent : Site) (children : List Site) : Site :=
  children.foldl Site.AppendSite parent

/-- The order that `SitesSorter.Less` sorts by: `Data.Text`, compared as
strings. -/
def textLE (a b : Site) : Prop := a.Data.Text ≤ b.Data.Text

/-- The child traversals of one page in the order in which they run, as the
specification describes them: for each link the child query carries the
link's URL string and the inherited `MaxDepth`, runs at `depth + 1` on the
crawler left by the previous child, and the run is recorded as the link
together with what the child `Crawl` returned. -/
def childRuns (w : Env) (maxDepth depth : Int) : Crawler → List Link → List (Link × Out)
  | _, [] => []
  | crawler, link :: rest =>
    match Crawl w { crawler with
        history := crawler.history ++ [Event.spawn link.URL.String (depth + 1)] }
        ⟨link.URL.String, maxDepth, 0⟩ (depth + 1) with
    | none => []
    | some out => (link, out) :: childRuns w maxDepth depth out.1 rest

/-- The nodes that the specification attaches for a list of child runs: for
each run that returned no error, the returned node with its `Data` replaced by
the discovering link; nothing for a run that returned an error. -/
def attachedNodes (runs : List (Link × Out)) : List Site :=
  runs.filterMap (fun r =>
    match r.2.2.2 with
    | none => some (r.2.2.1.setData r.1)
    | some _ => none)

/-- The crawler at the start of the loop over the links of the page `u`: the
link extraction has been recorded. -/
def loopStart (c : Crawler) (u : URL) : Crawler :=
  { c with history := c.history ++ [Event.extract u.String] }

/-- The links of the page in the order in which their traversals run. -/
def scheduledLinks (w : Env) (c : Crawler) (u : URL) (links : List (String × Link)) : List Link :=
  (w.mapOrder (loopStart c u).history links).map Prod.snd

/-- The node that the specification describes for the page `u` crawled at
depth `d`: the link of the page itself, and as children the sorted attached
nodes of the child runs. -/
def pageNode (w : Env) (maxDepth d : Int) (c : Crawler) (u : URL) (links : List (String × Link)) :
    Site :=
  Site.mk true (w.NewLink u "" u.String d)
    (sortSort w.sortLong
      (attachedNodes (childRuns w maxDepth d (loopStart c u) (scheduledLinks w c u links))))

/-- A sequence of `PutSiteToCache` calls. -/
def putAll (crawler : Crawler) (puts : List (URL × Site)) : Crawler :=
  puts.foldl (fun c p => (PutSiteToCache c p.1 p.2).1) crawler

/-- The site of the most recent put whose URL string is `k`. -/
def lastPut (puts : List (URL × Site)) (k : String) : Option Site :=
  (puts.reverse.find? (fun p => decide (p.1.String = k))).map Prod.snd

/-- A library sort for long slices: insertion sort by `Data.Text`. -/
def librarySort : LongSort where
  sort := List.insertionSort (fun a b => a.Data.Text ≤ b.Data.Text)
  perm := fun l => List.perm_insertionSort _ l
  sorted := fun l =>
    haveI : IsTotal Site (fun a b => a.Data.Text ≤ b.Data.Text) := ⟨fun _ _ => le_total _ _⟩
    haveI : IsTrans Site (fun a b => a.Data.Text ≤ b.Data.Text) :=
      ⟨fun _ _ _ h1 h2 => le_trans h1 h2⟩
    List.sorted_insertionSort _ l


/-- A `url.Parse` for strings of the shapes `http://host/path` and `path`. -/
def mockParse (s : String) : URL :=
  if "http://".data.isPrefixOf s.data then
    let rest := s.data.drop 7
    ⟨"http", String.mk (rest.takeWhile (fun c => c ≠ '/')), String.mk (rest.dropWhile (fun c => c ≠ '/'))⟩
  else ⟨"", "", s⟩

/-- A link resolver: an href that starts with a slash is resolved against the
parent, any other href is parsed on its own. -/
def mockNewLink (parent : URL) (text href : String) (depth : Int) : Link :=
  { URL := if href.data.head? = some '/' then ⟨parent.Scheme, parent.Host, href⟩ else mockParse href
    Text := text
    HREF := href
    Depth := depth }

/-- An HTML response with the given body. -/
def htmlPage (body : String) : Response :=
  { Status := "200 OK", StatusCode := 200, Header := [("Content-Type", ["text/html; charset=utf-8"])],
    Body := body }

/-- The pages served by the mock site. -/
def mockGet (url : String) : Except String Response :=
  if url = "http://a.test" then .ok (htmlPage "A")
  else if url = "http://a.test/b" then .ok (htmlPage "B")
  else if url = "http://a.test/c" then .ok (htmlPage "C")
  else if url = "http://a.test/img" then
    .ok { Status := "200 OK", StatusCode := 200, Header := [("Content-Type", ["image/png"])], Body := "" }
  else if url = "http://example.com" then .ok (htmlPage "E")
  else if url = "http://a.test/gone" then
    .ok { Status := "404 Not Found", StatusCode := 404, Header := [], Body := "" }
  else .error "no such host"

/-- The anchors of the mock pages, by page body. -/
def mockAnchors (body : String) : Except String (List Anchor) :=
  if body = "A" then
    .ok [⟨"b", "/b"⟩, ⟨"", "/c"⟩, ⟨"nohref", ""⟩, ⟨"gone", "/gone"⟩, ⟨"ext", "http://other.test/"⟩,
      ⟨"B again", "http://a.test/b"⟩, ⟨"mail", "mailto:x"⟩]
  else if body = "B" then .ok [⟨"c", "/c"⟩]
  else if body = "broken" then .error "html: parse failure"
  else .ok []

/-- A childless node, without mutex, for the link with the given text and path
on the mock site. -/
def mockLeaf (text path : String) : Site :=
  Site.mk false ⟨⟨"http", "a.test", path⟩, text, path, 1⟩ []

/-- The mock site as an environment; map entries are visited in insertion order. -/
def mockEnv : Env where
  ValidateStruct := fun site =>
    if site = "invalid site" then (false, some "Site: invalid site does not validate as url")
    else (true, none)
  urlParse := fun s => .ok (mockParse s)
  httpGet := mockGet
  htmlAnchors := mockAnchors
  NewLink := mockNewLink
  IsValidPageLink := fun link => link.URL.Scheme = "http"
  IsSameDomain := fun parent child => parent.Host = child.Host
  mapOrder := fun _ l => l
  mapOrder_perm := fun _ l => List.Perm.refl l
  sortLong := librarySort

/-- The URL of the mock page `A`. -/
def mockRoot : URL := ⟨"http", "a.test", ""⟩

/-- The map that `GetLinks` returns for the mock page `A` at child depth 1. -/
def mockRootLinks : List (String × Link) :=
  [("http://a.test/b", ⟨⟨"http", "a.test", "/b"⟩, "B again", "http://a.test/b", 1⟩),
    ("http://a.test/gone", ⟨⟨"http", "a.test", "/gone"⟩, "gone", "/gone", 1⟩)]

/-- The URL of the mock page `B`. -/
def mockB : URL := ⟨"http", "a.test", "/b"⟩

/-! ## Depth of a sitemap -/

mutual

/-- The number of link hops from a node down to its deepest descendant. -/
def Site.height : Site → Nat
  | Site.mk _ _ sites => heightList sites

/-- One more than the greatest height among the given children, `0` when
there are none. -/
def heightList : List Site → Nat
  | [] => 0
  | s :: rest => max (s.height + 1) (heightList rest)

end

/-- Every subtree in the visited cache has height at most `h`. -/
def cacheLE (c : Crawler) (h : Nat) : Prop :=
  ∀ (k : String) (v : Site), mapGet c.visitedSite k = some v → v.height ≤ h

/-! ## A small cyclic site -/

/-- The pages of the cyclic site: the root links to `/x` and `/y`, `/x` links
to itself, `/y` links to `/x`; `/p` and `/q` link to each other. -/
def cycleGet (url : String) : Except String Response :=
  if url = "http://s.test" then .ok (htmlPage "R")
  else if url = "http://s.test/x" then .ok (htmlPage "X")
  else if url = "http://s.test/y" then .ok (htmlPage "Y")
  else if url = "http://s.test/p" then .ok (htmlPage "P")
  else if url = "http://s.test/q" then .ok (htmlPage "Q")
  else .error "no such host"

/-- The anchors of the pages of the cyclic site, by page body. -/
def cycleAnchors (body : String) : Except String (List Anchor) :=
  if body = "R" then .ok [⟨"x", "/x"⟩, ⟨"y", "/y"⟩]
  else if body = "X" then .ok [⟨"x", "/x"⟩]
  else if body = "Y" then .ok [⟨"x", "/x"⟩]
  else if body = "P" then .ok [⟨"q", "/q"⟩]
  else if body = "Q" then .ok [⟨"p", "/p"⟩]
  else .ok []

/-- The cyclic site as an environment; map entries are visited in insertion
order. -/
def cycleEnv : Env where
  ValidateStruct := fun _ => (true, none)
  urlParse := fun s => .ok (mockParse s)
  httpGet := cycleGet
  htmlAnchors := cycleAnchors
  NewLink := mockNewLink
  IsValidPageLink := fun link => link.URL.Scheme = "http"
  IsSameDomain := fun parent child => parent.Host = child.Host
  mapOrder := fun _ l => l
  mapOrder_perm := fun _ l => List.Perm.refl l
  sortLong := librarySort

/-- The node of the cyclic site for the given anchor text, path, depth and
children. -/
def cycleNode (mutex : Bool) (text path : String) (depth : Int) (sites : List Site) : Site :=
  Site.mk mutex ⟨⟨"http", "s.test", path⟩, text, path, depth⟩ sites

/-- The links that `GetLinks` extracts from the root page of the cyclic site. -/
def cycleRootLinks : List (String × Link) :=
  [("http://s.test/x", ⟨⟨"http", "s.test", "/x"⟩, "x", "/x", 1⟩),
    ("http://s.test/y", ⟨⟨"http", "s.test", "/y"⟩, "y", "/y", 1⟩)]

/-- The tree returned for the root of the cyclic site with `MaxDepth = 3` when
`/x` is traversed before `/y`. -/
def cycleTreeForward : Site :=
  Site.mk true ⟨⟨"http", "s.test", ""⟩, "", "http://s.test", 0⟩
    [cycleNode true "x" "/x" 1
      [cycleNode true "x" "/x" 2 [cycleNode false "x" "/x" 3 []]],
     cycleNode true "y" "/y" 1
      [cycleNode true "x" "/x" 2
        [cycleNode true "x" "/x" 2 [cycleNode false "x" "/x" 3 []]]]]

theorem effectiveMaxDepth_ne_zero (q : CrawlQuery) : effectiveMaxDepth q ≠ 0 := by
  unfold effectiveMaxDepth defaultMaxDepth
  split <;> omega

theorem withDefaultDepth_MaxDepth (q : CrawlQuery) :
    (withDefaultDepth q).MaxDepth = effectiveMaxDepth q := by
  unfold withDefaultDepth effectiveMaxDepth
  split <;> rfl

theorem withDefaultDepth_Site (q : CrawlQuery) : (withDefaultDepth q).Site = q.Site := by
  unfold withDefaultDepth
  split <;> rfl

theorem effectiveMaxDepth_child (q : CrawlQuery) (s : String) (t : Int) :
    effectiveMaxDepth ⟨s, effectiveMaxDepth q, t⟩ = effectiveMaxDepth q := by
  have h := effectiveMaxDepth_ne_zero q
  show (if effectiveMaxDepth q = 0 then defaultMaxDepth else effectiveMaxDepth q) = _
  rw [if_neg h]

theorem crawlChildren_congr {r1 r2 : Crawler → CrawlQuery → Int → Option Out}
    (query : CrawlQuery) (depth : Int)
    (h : ∀ c s, r1 c ⟨s, query.MaxDepth, 0⟩ (depth + 1) = r2 c ⟨s, query.MaxDepth, 0⟩ (depth + 1)) :
    crawlChildren r1 query depth = crawlChildren r2 query depth := by
  have hstep : crawlChild r1 query depth = crawlChild r2 query depth := by
    funext acc link
    simp only [crawlChild, h]
  funext c site links
  simp only [crawlChildren, hstep]

theorem crawlBody_congr (w : Env) {r1 r2 : Crawler → CrawlQuery → Int → Option Out}
    (c : Crawler) (q : CrawlQuery) (d : Int)
    (h : d < effectiveMaxDepth q → ∀ c0 s,
      r1 c0 ⟨s, effectiveMaxDepth q, 0⟩ (d + 1) = r2 c0 ⟨s, effectiveMaxDepth q, 0⟩ (d + 1)) :
    crawlBody w r1 c q d = crawlBody w r2 c q d := by
  by_cases hd : d ≥ (withDefaultDepth q).MaxDepth
  · simp only [crawlBody, hd, if_true]
  · have hlt : d < effectiveMaxDepth q := by
      rw [withDefaultDepth_MaxDepth] at hd
      omega
    have hc : crawlChildren r1 (withDefaultDepth q) d = crawlChildren r2 (withDefaultDepth q) d :=
      crawlChildren_congr (withDefaultDepth q) d (by
        rw [withDefaultDepth_MaxDepth]
        exact h hlt)
    simp only [crawlBody, crawlPage, hc]

/-- The result of `crawlFuel` does not depend on the bound once the bound
exceeds `effectiveMaxDepth query - depth`. -/
theorem crawlFuel_stable (w : Env) : ∀ (n m : Nat) (c : Crawler) (q : CrawlQuery) (d : Int),
    (effectiveMaxDepth q - d).toNat < n → (effectiveMaxDepth q - d).toNat < m →
    crawlFuel w n c q d = crawlFuel w m c q d := by
  intro n
  induction n with
  | zero => intro m c q d h; omega
  | succ n ih =>
    intro m c q d hn hm
    cases m with
    | zero => omega
    | succ m =>
      simp only [crawlFuel]
      apply crawlBody_congr
      intro hlt c0 s
      apply ih
      · rw [effectiveMaxDepth_child]; omega
      · rw [effectiveMaxDepth_child]; omega

/-- The defining equation of `Crawl`: its body, with `Crawl` itself as the
recursive call. -/
theorem Crawl_unfold (w : Env) (c : Crawler) (q : CrawlQuery) (d : Int) :
    Crawl w c q d = crawlBody w (Crawl w) c q d := by
  show crawlFuel w ((effectiveMaxDepth q - d).toNat + 1) c q d = _
  simp only [crawlFuel]
  apply crawlBody_congr
  intro hlt c0 s
  show crawlFuel w _ c0 _ _ = crawlFuel w _ c0 _ _
  apply crawlFuel_stable
  · rw [effectiveMaxDepth_child]; omega
  · rw [effectiveMaxDepth_child]; omega

theorem Validate_withDefaultDepth (w : Env) (q : CrawlQuery) :
    Validate w (withDefaultDepth q) = Validate w q := by
  unfold Validate
  rw [withDefaultDepth_Site]

/-! ## Go maps -/

theorem mapGet_cons {V : Type} (k0 : String) (v0 : V) (m : List (String × V)) (k : String) :
    mapGet ((k0, v0) :: m) k = if k = k0 then some v0 else mapGet m k := by
  unfold mapGet
  rw [List.lookup_cons]
  by_cases h : k = k0
  · have hb : (k == k0) = true := by simp [h]
    rw [hb, if_pos h]
  · have hb : (k == k0) = false := by simp [h]
    rw [hb, if_neg h]

theorem mapGet_mapSet_same {V : Type} (m : List (String × V)) (k : String) (v : V) :
    mapGet (mapSet m k v) k = some v := by
  induction m with
  | nil => simp [mapSet, mapGet_cons]
  | cons p m ih =>
    obtain ⟨k0, v0⟩ := p
    by_cases h : k0 = k
    · simp [mapSet, h, mapGet_cons]
    · have h2 : ¬ k = k0 := fun e => h e.symm
      simp [mapSet, h, mapGet_cons, h2, ih]

theorem mapGet_mapSet_other {V : Type} (m : List (String × V)) (k : String) (v : V) (k1 : String)
    (hne : k1 ≠ k) : mapGet (mapSet m k v) k1 = mapGet m k1 := by
  induction m with
  | nil => simp [mapSet, mapGet_cons, hne, mapGet]
  | cons p m ih =>
    obtain ⟨k0, v0⟩ := p
    by_cases h : k0 = k
    · subst h
      simp [mapSet, mapGet_cons, hne]
    · simp [mapSet, h, mapGet_cons, ih]

theorem mapGet_mapSet {V : Type} (m : List (String × V)) (k : String) (v : V) (k1 : String) :
    mapGet (mapSet m k v) k1 = if k1 = k then some v else mapGet m k1 := by
  by_cases h : k1 = k
  · subst h
    simp [mapGet_mapSet_same]
  · simp [h, mapGet_mapSet_other]

theorem mem_keys_mapSet {V : Type} (m : List (String × V)) (k : String) (v : V) (k1 : String) :
    k1 ∈ (mapSet m k v).map Prod.fst ↔ k1 = k ∨ k1 ∈ m.map Prod.fst := by
  induction m with
  | nil => simp [mapSet]
  | cons p m ih =>
    obtain ⟨k0, v0⟩ := p
    by_cases h : k0 = k
    · subst h
      simp [mapSet]
    · simp only [mapSet, h, if_false, List.map_cons, List.mem_cons, ih]
      tauto

theorem nodup_keys_mapSet {V : Type} (m : List (String × V)) (k : String) (v : V)
    (hm : (m.map Prod.fst).Nodup) : ((mapSet m k v).map Prod.fst).Nodup := by
  induction m with
  | nil => simp [mapSet]
  | cons p m ih =>
    obtain ⟨k0, v0⟩ := p
    simp only [List.map_cons, List.nodup_cons] at hm
    by_cases h : k0 = k
    · subst h
      simp only [mapSet, if_true, List.map_cons, List.nodup_cons]
      exact hm
    · simp only [mapSet, h, if_false, List.map_cons, List.nodup_cons, mem_keys_mapSet]
      refine ⟨?_, ih hm.2⟩
      rintro (e | e)
      · exact e.elim
      · exact hm.1 e

theorem mapGet_isSome_iff {V : Type} (m : List (String × V)) (k : String) :
    (mapGet m k).isSome = true ↔ k ∈ m.map Prod.fst := by
  induction m with
  | nil => simp [mapGet]
  | cons p m ih =>
    obtain ⟨k0, v0⟩ := p
    rw [mapGet_cons]
    by_cases h : k = k0
    · simp [h]
    · simp [h, ih]

/-! ## Depth bound and validation -/

/-- At or beyond the depth bound `Crawl` returns at once. -/
theorem Crawl_of_depth_ge (w : Env) (crawler : Crawler) (query : CrawlQuery) (depth : Int)
    (h : depth ≥ (if query.MaxDepth = 0 then 2 else query.MaxDepth)) :
    Crawl w crawler query depth = some (crawler, Site.zero, none) := by
  have hd : depth ≥ (withDefaultDepth query).MaxDepth := by
    rw [withDefaultDepth_MaxDepth]
    exact h
  rw [Crawl_unfold]
  simp only [crawlBody, hd, if_true]

/-- C1: when `depth` is at least `M` (`query.MaxDepth` if that is non-zero, `2`
otherwise), `Crawl` returns the empty `Site` and no error for every query
(whatever `query.Site` is), and the crawler is unchanged: nothing was fetched
and the visited cache is as before. -/
theorem Crawl_depth_exceeded (w : Env) (crawler : Crawler) (query : CrawlQuery) (depth : Int)
    (h : depth ≥ (if query.MaxDepth = 0 then 2 else query.MaxDepth)) :
    Crawl w crawler query depth = some (crawler, Site.zero, none) ∧
    (∀ site : String, Crawl w crawler { query with Site := site } depth =
      some (crawler, Site.zero, none)) :=
  ⟨Crawl_of_depth_ge w crawler query depth h,
    fun site => Crawl_of_depth_ge w crawler { query with Site := site } depth h⟩

theorem Crawl_depth_exceeded_witness :
    (2 : Int) ≥ (if (⟨"invalid site", 1, 0⟩ : CrawlQuery).MaxDepth = 0 then 2
      else (⟨"invalid site", 1, 0⟩ : CrawlQuery).MaxDepth) ∧
    Crawl mockEnv NewCrawler ⟨"invalid site", 1, 0⟩ 2 = some (NewCrawler, Site.zero, none) :=
  ⟨by decide, (Crawl_depth_exceeded mockEnv NewCrawler ⟨"invalid site", 1, 0⟩ 2 (by decide)).1⟩

/-- C2: when `Validate` returns `false` with an error for the query and `depth`
is below the effective `MaxDepth`, `Crawl` returns an error together with the
empty `Site`, and the crawler is unchanged: nothing was fetched and the visited
cache is as before. -/
theorem Crawl_invalid_query (w : Env) (crawler : Crawler) (query : CrawlQuery) (depth : Int)
    (err : String) (hv : Validate w query = (false, some err))
    (hd : depth < (if query.MaxDepth = 0 then 2 else query.MaxDepth)) :
    ∃ e, Crawl w crawler query depth = some (crawler, Site.zero, some e) := by
  have hd0 : ¬ depth ≥ (withDefaultDepth query).MaxDepth := by
    rw [withDefaultDepth_MaxDepth]
    exact not_le.mpr hd
  refine ⟨"Query is not valid. " ++ err, ?_⟩
  rw [Crawl_unfold]
  simp only [crawlBody, hd0, if_false, Validate_withDefaultDepth, hv]

theorem Crawl_invalid_query_witness :
    Validate mockEnv ⟨"invalid site", 0, 0⟩
      = (false, some "Site: invalid site does not validate as url") ∧
    ∃ e, Crawl mockEnv NewCrawler ⟨"invalid site", 0, 0⟩ 0 = some (NewCrawler, Site.zero, some e) :=
  ⟨by decide, Crawl_invalid_query mockEnv NewCrawler ⟨"invalid site", 0, 0⟩ 0
    "Site: invalid site does not validate as url" (by decide) (by decide)⟩

/-! ## Link extraction -/

theorem getLinksStep_eq (w : Env) (siteURL : URL) (depth : Int) (m : List (String × Link))
    (a : Anchor) :
    getLinksStep w siteURL depth m a =
      if anchorKept w siteURL depth a = true then
        mapSet m (anchorLink w siteURL depth a).URL.String (anchorLink w siteURL depth a)
      else m := by
  unfold getLinksStep anchorKept anchorLink
  by_cases h1 : a.Text = ""
  · simp [h1]
  · by_cases h2 : a.Href = ""
    · simp [h1, h2]
    · by_cases h3 : w.IsValidPageLink (w.NewLink siteURL a.Text a.Href depth) = true
      · by_cases h4 : w.IsSameDomain siteURL (w.NewLink siteURL a.Text a.Href depth).URL = true
        · simp [h1, h2, h3, h4]
        · simp [h1, h2, h3, h4]
      · simp [h1, h2, h3]

theorem getLinks_foldl_nodup (w : Env) (siteURL : URL) (depth : Int) (anchors : List Anchor) :
    ∀ m : List (String × Link), (m.map Prod.fst).Nodup →
      (((anchors.foldl (getLinksStep w siteURL depth) m)).map Prod.fst).Nodup := by
  induction anchors with
  | nil => intro m hm; exact hm
  | cons a rest ih =>
    intro m hm
    rw [List.foldl_cons]
    apply ih
    rw [getLinksStep_eq]
    split
    · exact nodup_keys_mapSet _ _ _ hm
    · exact hm

theorem lastKeptLink_cons (w : Env) (siteURL : URL) (depth : Int) (a : Anchor)
    (rest : List Anchor) (k : String) :
    lastKeptLink w siteURL depth (a :: rest) k =
      (lastKeptLink w siteURL depth rest k).or
        (if anchorKept w siteURL depth a = true ∧ (anchorLink w siteURL depth a).URL.String = k
          then some (anchorLink w siteURL depth a) else none) := by
  unfold lastKeptLink
  by_cases hk : anchorKept w siteURL depth a = true
  · rw [List.filter_cons_of_pos hk, List.map_cons, List.reverse_cons, List.find?_append]
    by_cases he : (anchorLink w siteURL depth a).URL.String = k
    · simp [hk, he]
    · simp [hk, he]
  · rw [List.filter_cons_of_neg hk]
    simp [hk]

theorem getLinks_foldl_get (w : Env) (siteURL : URL) (depth : Int) (anchors : List Anchor)
    (k : String) : ∀ m : List (String × Link),
      mapGet (anchors.foldl (getLinksStep w siteURL depth) m) k =
        (lastKeptLink w siteURL depth anchors k).or (mapGet m k) := by
  induction anchors with
  | nil => intro m; simp [lastKeptLink]
  | cons a rest ih =>
    intro m
    rw [List.foldl_cons, ih, lastKeptLink_cons, getLinksStep_eq]
    cases hl : lastKeptLink w siteURL depth rest k with
    | some l => simp
    | none =>
      by_cases hk : anchorKept w siteURL depth a = true
      · by_cases he : (anchorLink w siteURL depth a).URL.String = k
        · simp [hk, he, mapGet_mapSet]
        · have he2 : ¬ k = (anchorLink w siteURL depth a).URL.String := fun e => he e.symm
          simp [hk, he, he2, mapGet_mapSet]
      · simp [hk]

theorem lastKeptLink_isSome_iff (w : Env) (siteURL : URL) (depth : Int) (anchors : List Anchor)
    (k : String) :
    (lastKeptLink w siteURL depth anchors k).isSome = true ↔
      ∃ a ∈ anchors, a.Text ≠ "" ∧ a.Href ≠ "" ∧
        w.IsValidPageLink (w.NewLink siteURL a.Text a.Href depth) = true ∧
        w.IsSameDomain siteURL (w.NewLink siteURL a.Text a.Href depth).URL = true ∧
        (w.NewLink siteURL a.Text a.Href depth).URL.String = k := by
  unfold lastKeptLink
  rw [List.find?_isSome]
  constructor
  · rintro ⟨l, hl, hkey⟩
    rw [List.mem_reverse, List.mem_map] at hl
    obtain ⟨a, ha, rfl⟩ := hl
    rw [List.mem_filter] at ha
    obtain ⟨hmem, hkept⟩ := ha
    simp only [anchorKept, anchorLink, Bool.and_eq_true, decide_eq_true_eq] at hkept hkey
    exact ⟨a, hmem, hkept.1.1.1, hkept.1.1.2, hkept.1.2, hkept.2, hkey⟩
  · rintro ⟨a, hmem, h1, h2, h3, h4, h5⟩
    refine ⟨anchorLink w siteURL depth a, ?_, ?_⟩
    · rw [List.mem_reverse, List.mem_map]
      refine ⟨a, ?_, rfl⟩
      rw [List.mem_filter]
      refine ⟨hmem, ?_⟩
      simp only [anchorKept, anchorLink, Bool.and_eq_true, decide_eq_true_eq]
      exact ⟨⟨⟨h1, h2⟩, h3⟩, h4⟩
    · simp only [anchorLink, decide_eq_true_eq]
      exact h5

/-- C3: when the page parses into the anchors `anchors`, `GetLinks` returns a
map, with one entry per key, whose keys are exactly the resolved URL strings of
the anchors with non-empty text, non-empty href, a valid page link and the
domain of the page, and in which each key is bound to the link built (at the
given depth) from the last such anchor in document order that resolves to it. -/
theorem GetLinks_spec (w : Env) (siteURL : URL) (resp : Response) (depth : Int)
    (anchors : List Anchor) (hparse : w.htmlAnchors resp.Body = .ok anchors) :
    ∃ links, GetLinks w siteURL resp depth = .ok links ∧
      (links.map Prod.fst).Nodup ∧
      (∀ k, k ∈ links.map Prod.fst ↔
        ∃ a ∈ anchors, a.Text ≠ "" ∧ a.Href ≠ "" ∧
          w.IsValidPageLink (w.NewLink siteURL a.Text a.Href depth) = true ∧
          w.IsSameDomain siteURL (w.NewLink siteURL a.Text a.Href depth).URL = true ∧
          (w.NewLink siteURL a.Text a.Href depth).URL.String = k) ∧
      (∀ k, mapGet links k = lastKeptLink w siteURL depth anchors k) := by
  refine ⟨anchors.foldl (getLinksStep w siteURL depth) [], ?_, ?_, ?_, ?_⟩
  · simp only [GetLinks, hparse]
  · exact getLinks_foldl_nodup w siteURL depth anchors [] (by simp)
  · intro k
    rw [← mapGet_isSome_iff, getLinks_foldl_get, ← lastKeptLink_isSome_iff]
    simp [mapGet]
  · intro k
    rw [getLinks_foldl_get]
    simp [mapGet]

theorem GetLinks_spec_witness :
    mockEnv.htmlAnchors (htmlPage "A").Body =
      .ok [⟨"b", "/b"⟩, ⟨"", "/c"⟩, ⟨"nohref", ""⟩, ⟨"gone", "/gone"⟩, ⟨"ext", "http://other.test/"⟩,
        ⟨"B again", "http://a.test/b"⟩, ⟨"mail", "mailto:x"⟩] ∧
    ∃ links, GetLinks mockEnv ⟨"http", "a.test", ""⟩ (htmlPage "A") 1 = .ok links ∧
      (links.map Prod.fst).Nodup ∧
      (∀ k, k ∈ links.map Prod.fst ↔
        ∃ a ∈ ([⟨"b", "/b"⟩, ⟨"", "/c"⟩, ⟨"nohref", ""⟩, ⟨"gone", "/gone"⟩,
            ⟨"ext", "http://other.test/"⟩, ⟨"B again", "http://a.test/b"⟩, ⟨"mail", "mailto:x"⟩] :
            List Anchor),
          a.Text ≠ "" ∧ a.Href ≠ "" ∧
          mockEnv.IsValidPageLink (mockEnv.NewLink ⟨"http", "a.test", ""⟩ a.Text a.Href 1) = true ∧
          mockEnv.IsSameDomain ⟨"http", "a.test", ""⟩
            (mockEnv.NewLink ⟨"http", "a.test", ""⟩ a.Text a.Href 1).URL = true ∧
          (mockEnv.NewLink ⟨"http", "a.test", ""⟩ a.Text a.Href 1).URL.String = k) ∧
      (∀ k, mapGet links k = lastKeptLink mockEnv ⟨"http", "a.test", ""⟩ 1
        [⟨"b", "/b"⟩, ⟨"", "/c"⟩, ⟨"nohref", ""⟩, ⟨"gone", "/gone"⟩, ⟨"ext", "http://other.test/"⟩,
          ⟨"B again", "http://a.test/b"⟩, ⟨"mail", "mailto:x"⟩] k) :=
  ⟨rfl, GetLinks_spec mockEnv ⟨"http", "a.test", ""⟩ (htmlPage "A") 1 _ rfl⟩

/-- On the mock page `A` the two anchors that resolve to `http://a.test/b`
give one entry, bound to the link of the later anchor. -/
theorem GetLinks_mock_page :
    GetLinks mockEnv ⟨"http", "a.test", ""⟩ (htmlPage "A") 1 =
      .ok [("http://a.test/b", ⟨⟨"http", "a.test", "/b"⟩, "B again", "http://a.test/b", 1⟩),
        ("http://a.test/gone", ⟨⟨"http", "a.test", "/gone"⟩, "gone", "/gone", 1⟩)] := by
  rfl

/-! ## The visited cache -/

theorem GetSiteFromCache_eq (c : Crawler) (u : URL) :
    GetSiteFromCache c u =
      match mapGet c.visitedSite u.String with
      | some visited => (visited, none)
      | none => (Site.zero, some ("Page is not cached yet " ++ u.String)) := rfl

theorem lastPut_cons (p : URL × Site) (rest : List (URL × Site)) (k : String) :
    lastPut (p :: rest) k = (lastPut rest k).or (if p.1.String = k then some p.2 else none) := by
  unfold lastPut
  rw [List.reverse_cons, List.find?_append]
  cases h : List.find? (fun p => decide (p.1.String = k)) rest.reverse with
  | some q => simp
  | none =>
    by_cases he : p.1.String = k
    · simp [he]
    · simp [he]

theorem putAll_get (puts : List (URL × Site)) (k : String) : ∀ c : Crawler,
    mapGet (putAll c puts).visitedSite k = (lastPut puts k).or (mapGet c.visitedSite k) := by
  induction puts with
  | nil => intro c; simp [putAll, lastPut]
  | cons p rest ih =>
    intro c
    have hstep : putAll c (p :: rest) = putAll (PutSiteToCache c p.1 p.2).1 rest := rfl
    rw [hstep, ih, lastPut_cons]
    cases hl : lastPut rest k with
    | some s => simp
    | none =>
      by_cases he : p.1.String = k
      · simp [he, PutSiteToCache, mapGet_mapSet]
      · have he2 : ¬ k = p.1.String := fun e => he e.symm
        simp [he, he2, PutSiteToCache, mapGet_mapSet]

/-- C9: the visited cache is a map keyed by the URL string.  After any sequence
of `PutSiteToCache` calls on a crawler, `GetSiteFromCache u` returns with no
error the site of the most recent put whose URL string equals that of `u`, and
what it returned before the puts when there is no such put: on a fresh crawler
that is the empty `Site` together with an error.  `PutSiteToCache` never
returns an error and leaves the entry of every other key as it was. -/
theorem cache_is_map (puts : List (URL × Site)) (u : URL) :
    GetSiteFromCache (putAll NewCrawler puts) u =
      (match lastPut puts u.String with
      | some site => (site, none)
      | none => (Site.zero, some ("Page is not cached yet " ++ u.String))) ∧
    (∀ c : Crawler, GetSiteFromCache (putAll c puts) u =
      match lastPut puts u.String with
      | some site => (site, none)
      | none => GetSiteFromCache c u) ∧
    (∀ (c : Crawler) (v : URL) (s : Site),
      (PutSiteToCache c v s).2 = none ∧
      GetSiteFromCache (PutSiteToCache c v s).1 v = (s, none) ∧
      ((PutSiteToCache c v s).1).history = c.history ∧
      ∀ u0 : URL, u0.String ≠ v.String →
        GetSiteFromCache (PutSiteToCache c v s).1 u0 = GetSiteFromCache c u0) := by
  have hgen : ∀ c : Crawler, GetSiteFromCache (putAll c puts) u =
      match lastPut puts u.String with
      | some site => (site, none)
      | none => GetSiteFromCache c u := by
    intro c
    rw [GetSiteFromCache_eq, GetSiteFromCache_eq, putAll_get]
    cases lastPut puts u.String with
    | some site => simp
    | none => simp
  refine ⟨?_, hgen, ?_⟩
  · rw [hgen NewCrawler]
    cases lastPut puts u.String with
    | some site => rfl
    | none => rfl
  · intro c v s
    refine ⟨rfl, ?_, rfl, ?_⟩
    · simp [GetSiteFromCache_eq, PutSiteToCache, mapGet_mapSet_same]
    · intro u0 hne
      simp [GetSiteFromCache_eq, PutSiteToCache, mapGet_mapSet_other _ _ _ _ hne]

/-! ## The path of `Crawl` up to a successful fetch -/

theorem GetSiteFromCache_miss (c : Crawler) (u : URL) (h : (GetSiteFromCache c u).2 ≠ none) :
    GetSiteFromCache c u = (Site.zero, some ("Page is not cached yet " ++ u.String)) := by
  rw [GetSiteFromCache_eq] at h ⊢
  cases hm : mapGet c.visitedSite u.String with
  | some v => rw [hm] at h; exact absurd rfl h
  | none => rfl

theorem Fetch_url (w : Env) (c : Crawler) (u : URL) :
    (Fetch w c u).2.1 = if u.Scheme = "" then { u with Scheme := "http" } else u := by
  simp only [Fetch]
  split
  · rfl
  · split <;> rfl

theorem Fetch_crawler (w : Env) (c : Crawler) (u : URL) :
    (Fetch w c u).1 =
      { visitedSite := c.visitedSite,
        history := c.history ++ [Event.get (Fetch w c u).2.1.String] } := by
  rw [Fetch_url]
  simp only [Fetch]
  split
  · rfl
  · split <;> rfl

/-- Below the depth bound, for a valid query whose URL parses, is not cached
and is fetched successfully, `Crawl` is `crawlPage` on the response. -/
theorem Crawl_of_fetched (w : Env) (c : Crawler) (q : CrawlQuery) (d : Int) (u : URL)
    (resp : Response)
    (hd : d < (if q.MaxDepth = 0 then 2 else q.MaxDepth))
    (hv : Validate w q = (true, none))
    (hp : w.urlParse q.Site = .ok u)
    (hc : (GetSiteFromCache c u).2 ≠ none)
    (hf : (Fetch w c u).2.2 = .ok resp) :
    Crawl w c q d =
      crawlPage w (Crawl w) (withDefaultDepth q) d (Fetch w c u).1 (Fetch w c u).2.1 resp := by
  have hd0 : ¬ d ≥ (withDefaultDepth q).MaxDepth := by
    rw [withDefaultDepth_MaxDepth]
    exact not_le.mpr hd
  have hmiss := GetSiteFromCache_miss c u hc
  rw [Crawl_unfold]
  rcases hF : Fetch w c u with ⟨c1, u1, r⟩
  rw [hF] at hf
  simp only at hf
  subst hf
  simp only [crawlBody, hd0, if_false, Validate_withDefaultDepth, hv, withDefaultDepth_Site, hp,
    hmiss, hF]

/-! ## Page classification -/

theorem containsChars_iff (substr : List Char) : ∀ s : List Char,
    containsChars s substr = true ↔ ∃ pre post, s = pre ++ substr ++ post := by
  intro s
  induction s with
  | nil =>
    simp only [containsChars, List.isEmpty_iff]
    constructor
    · intro h
      exact ⟨[], [], by simp [h]⟩
    · rintro ⟨pre, post, h⟩
      have h1 := congrArg List.length h
      simp only [List.length_nil, List.length_append] at h1
      exact List.length_eq_zero.mp (by omega)
  | cons c cs ih =>
    simp only [containsChars, Bool.or_eq_true, List.isPrefixOf_iff_prefix, ih]
    constructor
    · rintro (⟨t, ht⟩ | ⟨pre, post, h⟩)
      · exact ⟨[], t, by simp [ht]⟩
      · exact ⟨c :: pre, post, by simp [h]⟩
    · rintro ⟨pre, post, h⟩
      cases pre with
      | nil =>
        left
        exact ⟨post, by simpa using h.symm⟩
      | cons p pre0 =>
        right
        simp only [List.cons_append, List.cons.injEq] at h
        exact ⟨pre0, post, h.2⟩

theorem IsWebpage_iff (resp : Response) :
    IsWebpage resp = true ↔
      ∃ pre post, (headerGet resp.Header "Content-Type").data = pre ++ "text/html".data ++ post := by
  unfold IsWebpage stringsContains
  simp only [Bool.or_eq_true, containsChars_iff, beq_iff_eq]
  constructor
  · rintro (h | h)
    · exact ⟨[], [], by rw [h]; simp⟩
    · exact h
  · intro h
    exact Or.inr h

/-- C8: for a valid, uncached target below the effective `MaxDepth` whose fetch
succeeds with a response whose `Content-Type` header does not contain
`text/html`, `Crawl` returns the empty `Site` and no error; the visited cache
is unchanged and the only effect is the GET of the fetch (no link extraction,
no child traversal).  `IsWebpage` is true exactly when the `Content-Type`
header contains `text/html`. -/
theorem Crawl_not_webpage (w : Env) (crawler : Crawler) (query : CrawlQuery) (depth : Int)
    (u : URL) (resp : Response)
    (hd : depth < (if query.MaxDepth = 0 then 2 else query.MaxDepth))
    (hv : Validate w query = (true, none))
    (hp : w.urlParse query.Site = .ok u)
    (hc : (GetSiteFromCache crawler u).2 ≠ none)
    (hf : (Fetch w crawler u).2.2 = .ok resp)
    (hct : ¬ ∃ pre post,
      (headerGet resp.Header "Content-Type").data = pre ++ "text/html".data ++ post) :
    Crawl w crawler query depth =
      some ({ visitedSite := crawler.visitedSite,
              history := crawler.history ++ [Event.get (Fetch w crawler u).2.1.String] },
            Site.zero, none) ∧
    ∀ r : Response, IsWebpage r = true ↔
      ∃ pre post, (headerGet r.Header "Content-Type").data = pre ++ "text/html".data ++ post := by
  refine ⟨?_, IsWebpage_iff⟩
  have hnot : IsWebpage resp = false := by
    rw [← Bool.not_eq_true, IsWebpage_iff]
    exact hct
  rw [Crawl_of_fetched w crawler query depth u resp hd hv hp hc hf, ← Fetch_crawler]
  simp [crawlPage, hnot]

theorem Crawl_not_webpage_witness :
    (0 : Int) < (if (⟨"http://a.test/img", 0, 0⟩ : CrawlQuery).MaxDepth = 0 then 2
      else (⟨"http://a.test/img", 0, 0⟩ : CrawlQuery).MaxDepth) ∧
    Validate mockEnv ⟨"http://a.test/img", 0, 0⟩ = (true, none) ∧
    mockEnv.urlParse (⟨"http://a.test/img", 0, 0⟩ : CrawlQuery).Site = .ok ⟨"http", "a.test", "/img"⟩ ∧
    (GetSiteFromCache NewCrawler ⟨"http", "a.test", "/img"⟩).2 ≠ none ∧
    (Fetch mockEnv NewCrawler ⟨"http", "a.test", "/img"⟩).2.2 =
      .ok ⟨"200 OK", 200, [("Content-Type", ["image/png"])], ""⟩ ∧
    Crawl mockEnv NewCrawler ⟨"http://a.test/img", 0, 0⟩ 0 =
      some ({ visitedSite := [], history := [Event.get "http://a.test/img"] }, Site.zero, none) :=
  ⟨by decide, by decide, rfl, by decide, rfl,
    (Crawl_not_webpage mockEnv NewCrawler ⟨"http://a.test/img", 0, 0⟩ 0 ⟨"http", "a.test", "/img"⟩
      ⟨"200 OK", 200, [("Content-Type", ["image/png"])], ""⟩ (by decide) (by decide) rfl
      (by decide) rfl (by
        rw [← IsWebpage_iff]
        decide)).1⟩

/-! ## Sorting -/

theorem getD_append_length (P : List Site) (y : Site) (T : List Site) (d : Site) :
    (P ++ y :: T).getD P.length d = y := by
  rw [List.getD_append_right _ _ _ _ (le_refl _)]
  simp

theorem getD_append_length_succ (P : List Site) (y x : Site) (T : List Site) (d : Site) :
    (P ++ y :: x :: T).getD (P.length + 1) d = x := by
  rw [List.getD_append_right _ _ _ _ (Nat.le_succ _)]
  simp

theorem Swap_adjacent (P : List Site) (y x : Site) (T : List Site) :
    SitesSorter.Swap (P ++ y :: x :: T) (P.length + 1) P.length = P ++ x :: y :: T := by
  unfold SitesSorter.Swap
  rw [getD_append_length, getD_append_length_succ]
  rw [List.set_append_right _ _ (Nat.le_succ _), List.set_append_right _ _ (le_refl _)]
  simp

theorem Less_adjacent (P : List Site) (y x : Site) (T : List Site) :
    SitesSorter.Less (P ++ y :: x :: T) (P.length + 1) P.length = decide (x.Data.Text < y.Data.Text) := by
  unfold SitesSorter.Less
  rw [getD_append_length, getD_append_length_succ]

/-- One run of the inner loop inserts the element at index `P.length` into the
sorted run `P` before it. -/
theorem insertionInner_spec (rest : List Site) (x : Site) : ∀ (P S : List Site),
    List.Sorted textLE P → List.Sorted textLE S → (∀ s ∈ S, textLE x s) →
    (∀ p ∈ P, ∀ s ∈ S, textLE p s) →
    ∃ L, insertionInner (P ++ x :: (S ++ rest)) P.length = L ++ rest ∧
      L.Perm (P ++ x :: S) ∧ List.Sorted textLE L := by
  intro P
  induction P using List.reverseRecOn with
  | nil =>
    intro S _ hS hxS _
    refine ⟨x :: S, by simp [insertionInner], by simp, ?_⟩
    exact List.sorted_cons.mpr ⟨hxS, hS⟩
  | append_singleton P y ih =>
    intro S hP hS hxS hPS
    have hPy : List.Sorted textLE P ∧ ∀ p ∈ P, textLE p y := by
      have h := List.pairwise_append.mp hP
      exact ⟨h.1, fun p hp => h.2.2 p hp y (by simp)⟩
    have hdata : P ++ [y] ++ x :: (S ++ rest) = P ++ y :: x :: (S ++ rest) := by simp
    have hlen : (P ++ [y]).length = P.length + 1 := by simp
    rw [hdata, hlen]
    simp only [insertionInner, Less_adjacent, Swap_adjacent, decide_eq_true_eq]
    by_cases hlt : x.Data.Text < y.Data.Text
    · rw [if_pos hlt]
      have hyS : ∀ s ∈ S, textLE y s := fun s hs => hPS y (by simp) s hs
      obtain ⟨L, hL, hperm, hsorted⟩ := ih (y :: S) hPy.1
        (List.sorted_cons.mpr ⟨hyS, hS⟩)
        (by
          intro s hs
          rcases List.mem_cons.mp hs with rfl | hs
          · exact le_of_lt hlt
          · exact hxS s hs)
        (by
          intro p hp s hs
          rcases List.mem_cons.mp hs with rfl | hs
          · exact hPy.2 p hp
          · exact hPS p (by simp [hp]) s hs)
      refine ⟨L, by simpa using hL, ?_, hsorted⟩
      refine hperm.trans ?_
      simp only [List.append_assoc, List.singleton_append]
      exact List.Perm.append_left P (List.Perm.swap y x S)
    · rw [if_neg hlt]
      have hyx : textLE y x := not_lt.mp hlt
      refine ⟨P ++ [y] ++ x :: S, by simp, List.Perm.refl _, ?_⟩
      refine List.pairwise_append.mpr ⟨hP, List.sorted_cons.mpr ⟨hxS, hS⟩, ?_⟩
      intro p hp s hs
      rcases List.mem_cons.mp hs with rfl | hs
      · rcases List.mem_append.mp hp with hp | hp
        · exact le_trans (hPy.2 p hp) hyx
        · rw [List.mem_singleton.mp hp]; exact hyx
      · exact hPS p hp s hs

/-- The outer loop extends the sorted run by one element per iteration. -/
theorem insertionOuter_spec : ∀ (R L : List Site), List.Sorted textLE L →
    ∃ out, insertionOuter (L ++ R) L.length R.length = out ∧ out.Perm (L ++ R) ∧
      List.Sorted textLE out := by
  intro R
  induction R with
  | nil =>
    intro L hL
    exact ⟨L ++ [], rfl, List.Perm.refl _, by simpa using hL⟩
  | cons x R ih =>
    intro L hL
    obtain ⟨L1, hL1, hperm, hsorted⟩ := insertionInner_spec R x L [] hL List.sorted_nil
      (by simp) (by simp)
    simp only [List.nil_append] at hL1
    have hlen : L1.length = L.length + 1 := by
      have := hperm.length_eq
      simpa using this
    obtain ⟨out, hout, hp2, hs2⟩ := ih L1 hsorted
    refine ⟨out, ?_, ?_, hs2⟩
    · simp only [List.length_cons, insertionOuter, hL1]
      rw [← hlen]
      exact hout
    · refine hp2.trans ?_
      have h3 : (L1 ++ R).Perm ((L ++ [x]) ++ R) := List.Perm.append_right R (by simpa using hperm)
      simpa using h3

theorem insertionSort_spec (data : List Site) :
    (insertionSort data).Perm data ∧ List.Sorted textLE (insertionSort data) := by
  unfold insertionSort SitesSorter.Len
  cases data with
  | nil => simp [insertionOuter]
  | cons a rest =>
    obtain ⟨out, hout, hperm, hsorted⟩ := insertionOuter_spec rest [a] (by simp)
    have h1 : insertionOuter (a :: rest) 1 ((a :: rest).length - 1) = out := by
      simpa using hout
    rw [h1]
    exact ⟨by simpa using hperm, hsorted⟩

/-- Whatever the library does with long slices, `sort.Sort` returns a
permutation of its input sorted by `Data.Text`. -/
theorem sortSort_spec (lib : LongSort) (data : List Site) :
    (sortSort lib data).Perm data ∧ List.Sorted textLE (sortSort lib data) := by
  unfold sortSort
  by_cases h : SitesSorter.Len data ≤ 6
  · rw [if_pos h]
    exact insertionSort_spec data
  · rw [if_neg h]
    exact ⟨lib.perm data, lib.sorted data⟩

/-- C4: `SortSites` leaves the list a permutation of its input (the same nodes
with the same multiplicity, none of them modified) in which `Data.Text` is
non-decreasing in the order of strings; the empty list and a one-element list
are unchanged.  This holds whatever algorithm the library uses for long
slices. -/
theorem SortSites_sorted_perm (lib : LongSort) (sites : List Site) :
    (SortSites lib sites).Perm sites ∧
    List.Sorted (fun a b => a.Data.Text ≤ b.Data.Text) (SortSites lib sites) ∧
    SortSites lib [] = [] ∧ ∀ s : Site, SortSites lib [s] = [s] :=
  ⟨(sortSort_spec lib sites).1, (sortSort_spec lib sites).2, rfl, fun _ => rfl⟩

/-- A slice of two elements in order is left as it is; in particular two
elements with the same text are not exchanged. -/
theorem sortSort_pair (lib : LongSort) (a b : Site) (h : ¬ b.Data.Text < a.Data.Text) :
    sortSort lib [a, b] = [a, b] := by
  simp [sortSort, insertionSort, SitesSorter.Len, insertionOuter, insertionInner,
    SitesSorter.Less, h]

/-- A slice of two elements out of order is exchanged. -/
theorem sortSort_pair_swap (lib : LongSort) (a b : Site) (h : b.Data.Text < a.Data.Text) :
    sortSort lib [a, b] = [b, a] := by
  simp [sortSort, insertionSort, SitesSorter.Len, insertionOuter, insertionInner,
    SitesSorter.Less, SitesSorter.Swap, h]

/-- The test `two sites, descending` of `TestSortSites`. -/
theorem SortSites_two_descending (lib : LongSort) :
    SortSites lib [Site.mk false ⟨⟨"", "", ""⟩, "Site 2", "", 0⟩ [],
        Site.mk false ⟨⟨"", "", ""⟩, "Site 1", "", 0⟩ []] =
      [Site.mk false ⟨⟨"", "", ""⟩, "Site 1", "", 0⟩ [],
        Site.mk false ⟨⟨"", "", ""⟩, "Site 2", "", 0⟩ []] := by
  have h : "Site 1" < "Site 2" := by
    rw [String.lt_iff_toList_lt]
    decide
  exact sortSort_pair_swap lib _ _ (by simpa [Site.Data] using h)

/-! ## Order of siblings -/

theorem appendAll_Sites (children : List Site) : ∀ parent : Site,
    (appendAll parent children).Sites = parent.Sites ++ children := by
  induction children with
  | nil => intro parent; simp [appendAll]
  | cons c rest ih =>
    intro parent
    have hstep : appendAll parent (c :: rest) = appendAll (parent.AppendSite c) rest := rfl
    rw [hstep, ih]
    simp [Site.AppendSite, Site.setSites, Site.Sites]

theorem appendAll_mutex (children : List Site) : ∀ parent : Site,
    (appendAll parent children).mutex = parent.mutex := by
  induction children with
  | nil => intro parent; rfl
  | cons c rest ih =>
    intro parent
    have hstep : appendAll parent (c :: rest) = appendAll (parent.AppendSite c) rest := rfl
    rw [hstep, ih]
    rfl

theorem appendAll_Data (children : List Site) : ∀ parent : Site,
    (appendAll parent children).Data = parent.Data := by
  induction children with
  | nil => intro parent; rfl
  | cons c rest ih =>
    intro parent
    have hstep : appendAll parent (c :: rest) = appendAll (parent.AppendSite c) rest := rfl
    rw [hstep, ih]
    rfl

/-- The spec's ordering example: children appended as `b`, `a`, `c` end up in
the order `a`, `b`, `c`. -/
theorem sortSort_b_a_c (lib : LongSort) :
    sortSort lib (appendAll (Site.mk true Link.zero [])
        [mockLeaf "b" "/b", mockLeaf "a" "/a", mockLeaf "c" "/c"]).Sites =
      [mockLeaf "a" "/a", mockLeaf "b" "/b", mockLeaf "c" "/c"] := by
  have h1 : "a" < "b" := by
    rw [String.lt_iff_toList_lt]
    decide
  have h2 : ¬ "c" < "b" := by
    rw [String.lt_iff_toList_lt]
    decide
  simp [appendAll, Site.AppendSite, Site.setSites, Site.Sites, sortSort, insertionSort,
    SitesSorter.Len, insertionOuter, insertionInner, SitesSorter.Less, SitesSorter.Swap,
    Site.Data, mockLeaf, h1, h2]

theorem crawlChildren_nil (r : Crawler → CrawlQuery → Int → Option Out) (q : CrawlQuery)
    (d : Int) (c : Crawler) (site : Site) :
    crawlChildren r q d c site [] = some (c, site) := rfl

theorem crawlChildren_cons (r : Crawler → CrawlQuery → Int → Option Out) (q : CrawlQuery)
    (d : Int) (c : Crawler) (site : Site) (link : Link) (rest : List Link) :
    crawlChildren r q d c site (link :: rest) =
      match crawlChild r q d (c, site) link with
      | none => none
      | some acc => crawlChildren r q d acc.1 acc.2 rest := by
  unfold crawlChildren
  rw [List.foldlM_cons]
  cases crawlChild r q d (c, site) link with
  | none => rfl
  | some acc => rfl

theorem crawlChildren_isSome (r : Crawler → CrawlQuery → Int → Option Out) (q : CrawlQuery)
    (d : Int) (hr : ∀ c s, ∃ out, r c ⟨s, q.MaxDepth, 0⟩ (d + 1) = some out) :
    ∀ (links : List Link) (c : Crawler) (site : Site),
      ∃ res, crawlChildren r q d c site links = some res := by
  intro links
  induction links with
  | nil => intro c site; exact ⟨_, rfl⟩
  | cons link rest ih =>
    intro c site
    rw [crawlChildren_cons]
    obtain ⟨out, hout⟩ := hr
      { c with history := c.history ++ [Event.spawn link.URL.String (d + 1)] } link.URL.String
    obtain ⟨c1, s, err⟩ := out
    cases err with
    | none =>
      simp only [crawlChild, hout]
      exact ih _ _
    | some e =>
      simp only [crawlChild, hout]
      exact ih _ _

theorem crawlPage_isSome (w : Env) (r : Crawler → CrawlQuery → Int → Option Out)
    (q : CrawlQuery) (d : Int) (c : Crawler) (u : URL) (resp : Response)
    (hr : ∀ c s, ∃ out, r c ⟨s, q.MaxDepth, 0⟩ (d + 1) = some out) :
    ∃ out, crawlPage w r q d c u resp = some out := by
  unfold crawlPage
  split
  · exact ⟨_, rfl⟩
  · simp only
    split
    · exact ⟨_, rfl⟩
    · rename_i links _
      obtain ⟨res, hres⟩ := crawlChildren_isSome r q d hr
        ((w.mapOrder (c.history ++ [Event.extract u.String]) links).map Prod.snd)
        { c with history := c.history ++ [Event.extract u.String] }
        (Site.mk true (w.NewLink u "" u.String d) [])
      rw [hres]
      exact ⟨_, rfl⟩

theorem crawlBody_isSome (w : Env) (r : Crawler → CrawlQuery → Int → Option Out)
    (c : Crawler) (q : CrawlQuery) (d : Int)
    (hr : d < effectiveMaxDepth q →
      ∀ c s, ∃ out, r c ⟨s, effectiveMaxDepth q, 0⟩ (d + 1) = some out) :
    ∃ out, crawlBody w r c q d = some out := by
  unfold crawlBody
  simp only
  split
  · exact ⟨_, rfl⟩
  · rename_i hd
    have hlt : d < effectiveMaxDepth q := by
      rw [withDefaultDepth_MaxDepth] at hd
      omega
    split
    · exact ⟨_, rfl⟩
    · split
      · exact ⟨_, rfl⟩
      · split
        · exact ⟨_, rfl⟩
        · split
          · exact ⟨_, rfl⟩
          · apply crawlPage_isSome
            rw [withDefaultDepth_MaxDepth]
            exact hr hlt

theorem crawlFuel_isSome (w : Env) : ∀ (n : Nat) (c : Crawler) (q : CrawlQuery) (d : Int),
    (effectiveMaxDepth q - d).toNat < n → ∃ out, crawlFuel w n c q d = some out := by
  intro n
  induction n with
  | zero => intro c q d h; omega
  | succ n ih =>
    intro c q d hn
    simp only [crawlFuel]
    apply crawlBody_isSome
    intro hlt c0 s
    apply ih
    rw [effectiveMaxDepth_child]
    omega

/-- The function `Crawl` returns on every input: the bound on the nesting of
recursive calls is never exhausted. -/
theorem Crawl_isSome (w : Env) (c : Crawler) (q : CrawlQuery) (d : Int) :
    ∃ out, Crawl w c q d = some out :=
  crawlFuel_isSome w _ c q d (Nat.lt_succ_self _)

/-! ## Fan-out and fan-in -/

theorem attachedNodes_cons_ok (link : Link) (c : Crawler) (s : Site) (runs : List (Link × Out)) :
    attachedNodes ((link, (c, s, none)) :: runs) = s.setData link :: attachedNodes runs := rfl

theorem attachedNodes_cons_err (link : Link) (c : Crawler) (s : Site) (e : String)
    (runs : List (Link × Out)) :
    attachedNodes ((link, (c, s, some e)) :: runs) = attachedNodes runs := rfl

/-- The loop over the links attaches exactly the nodes of the child runs that
returned no error, in the order of the runs. -/
theorem crawlChildren_runs (w : Env) (q : CrawlQuery) (d : Int) :
    ∀ (links : List Link) (c : Crawler) (site : Site),
      ∃ cfinal, crawlChildren (Crawl w) q d c site links =
        some (cfinal, appendAll site (attachedNodes (childRuns w q.MaxDepth d c links))) := by
  intro links
  induction links with
  | nil => intro c site; exact ⟨c, rfl⟩
  | cons link rest ih =>
    intro c site
    rw [crawlChildren_cons]
    obtain ⟨out, hout⟩ := Crawl_isSome w
      { c with history := c.history ++ [Event.spawn link.URL.String (d + 1)] }
      ⟨link.URL.String, q.MaxDepth, 0⟩ (d + 1)
    obtain ⟨c1, s, err⟩ := out
    cases err with
    | none =>
      simp only [crawlChild, childRuns, hout, attachedNodes_cons_ok]
      exact ih c1 _
    | some e =>
      simp only [crawlChild, childRuns, hout, attachedNodes_cons_err]
      exact ih c1 _

theorem childRuns_links (w : Env) (m d : Int) : ∀ (links : List Link) (c : Crawler),
    (childRuns w m d c links).map Prod.fst = links := by
  intro links
  induction links with
  | nil => intro c; rfl
  | cons link rest ih =>
    intro c
    obtain ⟨out, hout⟩ := Crawl_isSome w
      { c with history := c.history ++ [Event.spawn link.URL.String (d + 1)] }
      ⟨link.URL.String, m, 0⟩ (d + 1)
    simp only [childRuns, hout, List.map_cons, ih]

theorem attachedNodes_Data (runs : List (Link × Out)) :
    ∀ s ∈ attachedNodes runs, s.Data ∈ runs.map Prod.fst := by
  intro s hs
  unfold attachedNodes at hs
  rw [List.mem_filterMap] at hs
  obtain ⟨r, hr, hsome⟩ := hs
  obtain ⟨link, c, node, err⟩ := r
  cases err with
  | none =>
    simp only [Option.some.injEq] at hsome
    subst hsome
    exact List.mem_map.mpr ⟨_, hr, rfl⟩
  | some e => simp at hsome

/-- For an HTML response whose links are extracted, `crawlPage` returns, with
no error, the node of the page with the sorted attached nodes of its child
runs as children, after storing that node in the cache under the URL string of
`u`. -/
theorem crawlPage_of_links (w : Env) (q : CrawlQuery) (d : Int) (c : Crawler) (u : URL)
    (resp : Response) (links : List (String × Link)) (hweb : IsWebpage resp = true)
    (hlinks : GetLinks w u resp (d + 1) = .ok links) :
    ∃ cfinal, crawlPage w (Crawl w) q d c u resp =
      some ((PutSiteToCache cfinal u (pageNode w q.MaxDepth d c u links)).1,
        pageNode w q.MaxDepth d c u links, none) := by
  obtain ⟨cfinal, hfinal⟩ := crawlChildren_runs w q d (scheduledLinks w c u links)
    (loopStart c u) (Site.mk true (w.NewLink u "" u.String d) [])
  refine ⟨cfinal, ?_⟩
  have hsite : ∀ (l : Link) (nodes : List Site),
      (appendAll (Site.mk true l []) nodes).setSites
          (sortSort w.sortLong (appendAll (Site.mk true l []) nodes).Sites) =
        Site.mk true l (sortSort w.sortLong nodes) := by
    intro l nodes
    unfold Site.setSites
    rw [appendAll_mutex, appendAll_Data, appendAll_Sites]
    rfl
  unfold scheduledLinks loopStart at hfinal
  simp only [crawlPage, hweb, hlinks, hfinal, Bool.not_true, Bool.false_eq_true, if_false, hsite]
  rfl

/-- C6: for a target below the effective `MaxDepth` that is valid, not cached,
fetched successfully, classified as HTML and parsed without error, `Crawl`
returns no error whatever the child traversals return.  The children of the
returned node are, up to order, exactly the attached nodes of the child runs:
one run per extracted link, one node for each run whose `Crawl` returned no
error and none for a run whose `Crawl` returned an error; the `Data` of each
attached child is the discovering link of the extracted set. -/
theorem Crawl_children (w : Env) (crawler : Crawler) (query : CrawlQuery) (depth : Int)
    (u : URL) (resp : Response) (links : List (String × Link))
    (hd : depth < (if query.MaxDepth = 0 then 2 else query.MaxDepth))
    (hv : Validate w query = (true, none))
    (hp : w.urlParse query.Site = .ok u)
    (hc : (GetSiteFromCache crawler u).2 ≠ none)
    (hf : (Fetch w crawler u).2.2 = .ok resp)
    (hweb : IsWebpage resp = true)
    (hlinks : GetLinks w (Fetch w crawler u).2.1 resp (depth + 1) = .ok links) :
    ∃ (after : Crawler) (site : Site) (runs : List (Link × Out)),
      Crawl w crawler query depth = some (after, site, none) ∧
      runs = childRuns w (if query.MaxDepth = 0 then 2 else query.MaxDepth) depth
        (loopStart (Fetch w crawler u).1 (Fetch w crawler u).2.1)
        (scheduledLinks w (Fetch w crawler u).1 (Fetch w crawler u).2.1 links) ∧
      (runs.map Prod.fst).Perm (links.map Prod.snd) ∧
      site.Sites.Perm (attachedNodes runs) ∧
      ∀ child ∈ site.Sites, ∃ k, (k, child.Data) ∈ links := by
  obtain ⟨cfinal, hpage⟩ := crawlPage_of_links w (withDefaultDepth query) depth
    (Fetch w crawler u).1 (Fetch w crawler u).2.1 resp links hweb hlinks
  rw [withDefaultDepth_MaxDepth] at hpage
  have hperm : (scheduledLinks w (Fetch w crawler u).1 (Fetch w crawler u).2.1 links).Perm
      (links.map Prod.snd) := (w.mapOrder_perm _ links).map Prod.snd
  have hsub : ∀ child ∈ attachedNodes (childRuns w (effectiveMaxDepth query) depth
      (loopStart (Fetch w crawler u).1 (Fetch w crawler u).2.1)
      (scheduledLinks w (Fetch w crawler u).1 (Fetch w crawler u).2.1 links)),
      ∃ k, (k, child.Data) ∈ links := by
    intro child hchild
    have h2 := attachedNodes_Data _ child hchild
    rw [childRuns_links] at h2
    obtain ⟨kv, hkv, hdata⟩ := List.mem_map.mp (hperm.subset h2)
    exact ⟨kv.1, by rw [← hdata]; exact hkv⟩
  refine ⟨(PutSiteToCache cfinal (Fetch w crawler u).2.1
      (pageNode w (effectiveMaxDepth query) depth (Fetch w crawler u).1 (Fetch w crawler u).2.1
        links)).1,
    pageNode w (effectiveMaxDepth query) depth (Fetch w crawler u).1 (Fetch w crawler u).2.1 links,
    childRuns w (effectiveMaxDepth query) depth
      (loopStart (Fetch w crawler u).1 (Fetch w crawler u).2.1)
      (scheduledLinks w (Fetch w crawler u).1 (Fetch w crawler u).2.1 links), ?_, rfl, ?_, ?_, ?_⟩
  · rw [Crawl_of_fetched w crawler query depth u resp hd hv hp hc hf]
    exact hpage
  · rw [childRuns_links]
    exact hperm
  · exact (sortSort_spec w.sortLong _).1
  · intro child hchild
    exact hsub child ((sortSort_spec w.sortLong _).1.subset hchild)

theorem Crawl_children_witness :
    (0 : Int) < (if (⟨"http://a.test", 3, 0⟩ : CrawlQuery).MaxDepth = 0 then 2
      else (⟨"http://a.test", 3, 0⟩ : CrawlQuery).MaxDepth) ∧
    Validate mockEnv ⟨"http://a.test", 3, 0⟩ = (true, none) ∧
    mockEnv.urlParse (⟨"http://a.test", 3, 0⟩ : CrawlQuery).Site = .ok mockRoot ∧
    (GetSiteFromCache NewCrawler mockRoot).2 ≠ none ∧
    (Fetch mockEnv NewCrawler mockRoot).2.2 = .ok (htmlPage "A") ∧
    IsWebpage (htmlPage "A") = true ∧
    GetLinks mockEnv (Fetch mockEnv NewCrawler mockRoot).2.1 (htmlPage "A") (0 + 1) =
      .ok mockRootLinks ∧
    ∃ (after : Crawler) (site : Site) (runs : List (Link × Out)),
      Crawl mockEnv NewCrawler ⟨"http://a.test", 3, 0⟩ 0 = some (after, site, none) ∧
      runs = childRuns mockEnv (if (⟨"http://a.test", 3, 0⟩ : CrawlQuery).MaxDepth = 0 then 2
          else (⟨"http://a.test", 3, 0⟩ : CrawlQuery).MaxDepth) 0
        (loopStart (Fetch mockEnv NewCrawler mockRoot).1 (Fetch mockEnv NewCrawler mockRoot).2.1)
        (scheduledLinks mockEnv (Fetch mockEnv NewCrawler mockRoot).1
          (Fetch mockEnv NewCrawler mockRoot).2.1 mockRootLinks) ∧
      (runs.map Prod.fst).Perm (mockRootLinks.map Prod.snd) ∧
      site.Sites.Perm (attachedNodes runs) ∧
      ∀ child ∈ site.Sites, ∃ k, (k, child.Data) ∈ mockRootLinks :=
  ⟨by decide, by decide, rfl, by decide, rfl, by decide, rfl,
    Crawl_children mockEnv NewCrawler ⟨"http://a.test", 3, 0⟩ 0 mockRoot (htmlPage "A")
      mockRootLinks (by decide) (by decide) rfl (by decide) rfl (by decide) rfl⟩

/-- On the mock site the child `/gone` fails (status 404) and is left out; the
child `/b` is attached with the text of its discovering anchor. -/
theorem Crawl_mock_root_children :
    (Crawl mockEnv NewCrawler ⟨"http://a.test", 3, 0⟩ 0).map
        (fun out => (out.2.1.Sites.map (fun s => s.Data.Text), out.2.2)) =
      some (["B again"], none) := by
  decide

/-! ## Depth truncation -/

theorem childRuns_truncated (w : Env) (m d : Int)
    (hdeep : d + 1 ≥ (if m = 0 then 2 else m)) : ∀ (links : List Link) (c : Crawler),
    attachedNodes (childRuns w m d c links) = links.map (fun link => Site.mk false link []) := by
  intro links
  induction links with
  | nil => intro c; rfl
  | cons link rest ih =>
    intro c
    have hcall := Crawl_of_depth_ge w
      { c with history := c.history ++ [Event.spawn link.URL.String (d + 1)] }
      ⟨link.URL.String, m, 0⟩ (d + 1) hdeep
    simp only [childRuns, hcall, attachedNodes_cons_ok, List.map_cons, ih]
    rfl

/-- C7 (amended): when a child traversal `Crawl(childQuery, depth+1)` returns
the empty `Site` with no error because `depth+1 >= MaxDepth`, the parent
attaches for that link a node without children whose `Data` is the link: at
the last level below the bound the children of the returned node are exactly
the nodes `Site{Data: link}` of the extracted links, sorted by text. -/
theorem Crawl_truncated_children (w : Env) (crawler : Crawler) (query : CrawlQuery) (depth : Int)
    (u : URL) (resp : Response) (links : List (String × Link))
    (hd : depth < (if query.MaxDepth = 0 then 2 else query.MaxDepth))
    (hdeep : depth + 1 ≥ (if query.MaxDepth = 0 then 2 else query.MaxDepth))
    (hv : Validate w query = (true, none))
    (hp : w.urlParse query.Site = .ok u)
    (hc : (GetSiteFromCache crawler u).2 ≠ none)
    (hf : (Fetch w crawler u).2.2 = .ok resp)
    (hweb : IsWebpage resp = true)
    (hlinks : GetLinks w (Fetch w crawler u).2.1 resp (depth + 1) = .ok links) :
    ∃ (after : Crawler) (site : Site),
      Crawl w crawler query depth = some (after, site, none) ∧
      site.Sites = sortSort w.sortLong ((scheduledLinks w (Fetch w crawler u).1
        (Fetch w crawler u).2.1 links).map (fun link => Site.mk false link [])) ∧
      site.Sites.Perm (links.map (fun kv => Site.mk false kv.2 [])) := by
  obtain ⟨cfinal, hpage⟩ := crawlPage_of_links w (withDefaultDepth query) depth
    (Fetch w crawler u).1 (Fetch w crawler u).2.1 resp links hweb hlinks
  rw [withDefaultDepth_MaxDepth] at hpage
  have hdeep2 : depth + 1 ≥ (if effectiveMaxDepth query = 0 then 2 else effectiveMaxDepth query) := by
    rw [if_neg (effectiveMaxDepth_ne_zero query)]
    exact hdeep
  have hsites : (pageNode w (effectiveMaxDepth query) depth (Fetch w crawler u).1
      (Fetch w crawler u).2.1 links).Sites =
      sortSort w.sortLong ((scheduledLinks w (Fetch w crawler u).1 (Fetch w crawler u).2.1
        links).map (fun link => Site.mk false link [])) := by
    unfold pageNode
    rw [childRuns_truncated w _ depth hdeep2]
    rfl
  refine ⟨(PutSiteToCache cfinal (Fetch w crawler u).2.1
      (pageNode w (effectiveMaxDepth query) depth (Fetch w crawler u).1 (Fetch w crawler u).2.1
        links)).1,
    pageNode w (effectiveMaxDepth query) depth (Fetch w crawler u).1 (Fetch w crawler u).2.1 links,
    ?_, hsites, ?_⟩
  · rw [Crawl_of_fetched w crawler query depth u resp hd hv hp hc hf]
    exact hpage
  · rw [hsites]
    refine (sortSort_spec w.sortLong _).1.trans ?_
    have hperm : (scheduledLinks w (Fetch w crawler u).1 (Fetch w crawler u).2.1 links).Perm
        (links.map Prod.snd) := (w.mapOrder_perm _ links).map Prod.snd
    have h2 := hperm.map (fun link => Site.mk false link [])
    simpa using h2

theorem Crawl_truncated_children_witness :
    (0 : Int) < (if (⟨"http://a.test", 1, 0⟩ : CrawlQuery).MaxDepth = 0 then 2
      else (⟨"http://a.test", 1, 0⟩ : CrawlQuery).MaxDepth) ∧
    (0 : Int) + 1 ≥ (if (⟨"http://a.test", 1, 0⟩ : CrawlQuery).MaxDepth = 0 then 2
      else (⟨"http://a.test", 1, 0⟩ : CrawlQuery).MaxDepth) ∧
    Validate mockEnv ⟨"http://a.test", 1, 0⟩ = (true, none) ∧
    mockEnv.urlParse (⟨"http://a.test", 1, 0⟩ : CrawlQuery).Site = .ok mockRoot ∧
    (GetSiteFromCache NewCrawler mockRoot).2 ≠ none ∧
    (Fetch mockEnv NewCrawler mockRoot).2.2 = .ok (htmlPage "A") ∧
    IsWebpage (htmlPage "A") = true ∧
    GetLinks mockEnv (Fetch mockEnv NewCrawler mockRoot).2.1 (htmlPage "A") (0 + 1) =
      .ok mockRootLinks ∧
    ∃ (after : Crawler) (site : Site),
      Crawl mockEnv NewCrawler ⟨"http://a.test", 1, 0⟩ 0 = some (after, site, none) ∧
      site.Sites = sortSort mockEnv.sortLong ((scheduledLinks mockEnv (Fetch mockEnv NewCrawler mockRoot).1
        (Fetch mockEnv NewCrawler mockRoot).2.1 mockRootLinks).map
          (fun link => Site.mk false link [])) ∧
      site.Sites.Perm (mockRootLinks.map (fun kv => Site.mk false kv.2 [])) :=
  ⟨by decide, by decide, by decide, rfl, by decide, rfl, by decide, rfl,
    Crawl_truncated_children mockEnv NewCrawler ⟨"http://a.test", 1, 0⟩ 0 mockRoot (htmlPage "A")
      mockRootLinks (by decide) (by decide) (by decide) rfl (by decide) rfl (by decide) rfl⟩

/-- C7 (as stated) fails: on the mock page `B`, crawled at depth 0 with
`MaxDepth = 1`, the traversal of the only link is truncated by the depth bound
(it returns the empty `Site` and no error), and the returned node has a child
for that link. -/
theorem truncated_child_is_attached :
    Crawl mockEnv
        { visitedSite := [],
          history := [Event.get "http://a.test/b", Event.extract "http://a.test/b",
            Event.spawn "http://a.test/c" 1] }
        ⟨"http://a.test/c", 1, 0⟩ (0 + 1) =
      some ({ visitedSite := [],
              history := [Event.get "http://a.test/b", Event.extract "http://a.test/b",
                Event.spawn "http://a.test/c" 1] }, Site.zero, none) ∧
    Crawl mockEnv NewCrawler ⟨"http://a.test/b", 1, 0⟩ 0 =
      some ({ visitedSite := [("http://a.test/b",
                Site.mk true ⟨mockB, "", "http://a.test/b", 0⟩
                  [Site.mk false ⟨⟨"http", "a.test", "/c"⟩, "c", "/c", 1⟩ []])],
              history := [Event.get "http://a.test/b", Event.extract "http://a.test/b",
                Event.spawn "http://a.test/c" 1] },
        Site.mk true ⟨mockB, "", "http://a.test/b", 0⟩
          [Site.mk false ⟨⟨"http", "a.test", "/c"⟩, "c", "/c", 1⟩ []], none) :=
  ⟨rfl, rfl⟩

/-! ## Re-crawling a completed target -/

/-- When the parsed target URL has a scheme, `Fetch` leaves it as it is, the
completed node is stored under the key that the cache check looks up, and the
next `Crawl` of the same `query.Site` on the resulting crawler, at any depth
below its bound, returns the stored node with no error and leaves the crawler
(cache and history of effects) unchanged. -/
theorem Crawl_cached_again (w : Env) (crawler : Crawler) (query : CrawlQuery) (depth : Int)
    (u : URL) (resp : Response) (links : List (String × Link))
    (hd : depth < (if query.MaxDepth = 0 then 2 else query.MaxDepth))
    (hv : Validate w query = (true, none))
    (hp : w.urlParse query.Site = .ok u)
    (hc : (GetSiteFromCache crawler u).2 ≠ none)
    (hf : (Fetch w crawler u).2.2 = .ok resp)
    (hweb : IsWebpage resp = true)
    (hlinks : GetLinks w (Fetch w crawler u).2.1 resp (depth + 1) = .ok links)
    (hscheme : u.Scheme ≠ "") :
    ∃ (after : Crawler) (site : Site),
      Crawl w crawler query depth = some (after, site, none) ∧
      ∀ (later : CrawlQuery) (d : Int), later.Site = query.Site →
        d < (if later.MaxDepth = 0 then 2 else later.MaxDepth) →
        Crawl w after later d = some (after, site, none) := by
  obtain ⟨cfinal, hpage⟩ := crawlPage_of_links w (withDefaultDepth query) depth
    (Fetch w crawler u).1 (Fetch w crawler u).2.1 resp links hweb hlinks
  have hu : (Fetch w crawler u).2.1 = u := by
    rw [Fetch_url, if_neg hscheme]
  rw [hu] at hpage
  refine ⟨(PutSiteToCache cfinal u
      (pageNode w (withDefaultDepth query).MaxDepth depth (Fetch w crawler u).1 u links)).1,
    pageNode w (withDefaultDepth query).MaxDepth depth (Fetch w crawler u).1 u links, ?_, ?_⟩
  · rw [Crawl_of_fetched w crawler query depth u resp hd hv hp hc hf, hu]
    exact hpage
  · intro later d hsite hlater
    have hd0 : ¬ d ≥ (withDefaultDepth later).MaxDepth := by
      rw [withDefaultDepth_MaxDepth]
      exact not_le.mpr hlater
    have hv2 : Validate w later = (true, none) := by
      unfold Validate at hv ⊢
      rw [hsite]
      exact hv
    have hhit : ∀ (c : Crawler) (s : Site),
        GetSiteFromCache (PutSiteToCache c u s).1 u = (s, none) := by
      intro c s
      simp [GetSiteFromCache_eq, PutSiteToCache, mapGet_mapSet_same]
    rw [Crawl_unfold]
    simp only [crawlBody, hd0, if_false, Validate_withDefaultDepth, hv2, withDefaultDepth_Site,
      hsite, hp, hhit]

/-- C10 fails on a target without a scheme.  The query `example.com` is valid
and parses to a URL whose string is `example.com`; `Fetch` sets the scheme
through the pointer, so the completed node is stored under
`http://example.com`.  The next `Crawl` of the same query looks up
`example.com`, misses, and performs the GET and the link extraction again. -/
theorem Crawl_refetches_target_without_scheme :
    Validate mockEnv ⟨"example.com", 0, 0⟩ = (true, none) ∧
    mockEnv.urlParse "example.com" = .ok ⟨"", "", "example.com"⟩ ∧
    (⟨"", "", "example.com"⟩ : URL).String = "example.com" ∧
    Crawl mockEnv NewCrawler ⟨"example.com", 0, 0⟩ 0 =
      some ({ visitedSite := [("http://example.com",
                Site.mk true ⟨⟨"http", "example.com", ""⟩, "", "http://example.com", 0⟩ [])],
              history := [Event.get "http://example.com", Event.extract "http://example.com"] },
        Site.mk true ⟨⟨"http", "example.com", ""⟩, "", "http://example.com", 0⟩ [], none) ∧
    Crawl mockEnv
        { visitedSite := [("http://example.com",
            Site.mk true ⟨⟨"http", "example.com", ""⟩, "", "http://example.com", 0⟩ [])],
          history := [Event.get "http://example.com", Event.extract "http://example.com"] }
        ⟨"example.com", 0, 0⟩ 0 =
      some ({ visitedSite := [("http://example.com",
                Site.mk true ⟨⟨"http", "example.com", ""⟩, "", "http://example.com", 0⟩ [])],
              history := [Event.get "http://example.com", Event.extract "http://example.com",
                Event.get "http://example.com", Event.extract "http://example.com"] },
        Site.mk true ⟨⟨"http", "example.com", ""⟩, "", "http://example.com", 0⟩ [], none) :=
  ⟨by decide, rfl, by decide, rfl, rfl⟩

/-! ## Height of the sitemap -/

theorem height_eq_heightList (s : Site) : s.height = heightList s.Sites := by
  cases s with
  | mk m d sites => simp [Site.height, Site.Sites]

theorem heightList_cons (s : Site) (rest : List Site) :
    heightList (s :: rest) = max (s.height + 1) (heightList rest) := by
  simp [heightList]

theorem height_zero : Site.zero.height = 0 := by
  simp [Site.zero, Site.height, heightList]

theorem height_setData (s : Site) (link : Link) : (s.setData link).height = s.height := by
  cases s with
  | mk m d sites => simp [Site.setData, Site.height, Site.Sites]

theorem height_setSites (s : Site) (sites : List Site) :
    (s.setSites sites).height = heightList sites := by
  simp [Site.setSites, Site.height]

theorem heightList_le_succ (n : Nat) : ∀ l : List Site,
    heightList l ≤ n + 1 ↔ ∀ s ∈ l, s.height ≤ n := by
  intro l
  induction l with
  | nil => simp [heightList]
  | cons s rest ih =>
    rw [heightList_cons, max_le_iff, ih]
    simp

theorem heightList_perm {l1 l2 : List Site} (h : l1.Perm l2) : heightList l1 = heightList l2 := by
  induction h with
  | nil => rfl
  | cons x _ ih => rw [heightList_cons, heightList_cons, ih]
  | swap x y l =>
    simp only [heightList_cons]
    rw [← max_assoc, ← max_assoc, max_comm (y.height + 1)]
  | trans _ _ ih1 ih2 => exact ih1.trans ih2

theorem cacheLE_history (c : Crawler) (hist : List Event) (H : Nat) (hc : cacheLE c H) :
    cacheLE { c with history := hist } H := hc

theorem cacheLE_NewCrawler (H : Nat) : cacheLE NewCrawler H := by
  intro k v hk
  simp [NewCrawler, mapGet] at hk

theorem cacheLE_put (c : Crawler) (u : URL) (site : Site) (H : Nat) (hc : cacheLE c H)
    (hs : site.height ≤ H) : cacheLE (PutSiteToCache c u site).1 H := by
  intro k v hk
  simp only [PutSiteToCache, mapGet_mapSet] at hk
  by_cases he : k = u.String
  · rw [if_pos he] at hk
    simp only [Option.some.injEq] at hk
    rw [← hk]
    exact hs
  · rw [if_neg he] at hk
    exact hc k v hk

theorem GetSiteFromCache_hit (c : Crawler) (u : URL) (v : Site)
    (h : GetSiteFromCache c u = (v, none)) : mapGet c.visitedSite u.String = some v := by
  rw [GetSiteFromCache_eq] at h
  cases hm : mapGet c.visitedSite u.String with
  | some v0 =>
    rw [hm] at h
    simp only [Prod.mk.injEq, and_true] at h
    rw [h]
  | none =>
    rw [hm] at h
    simp at h

/-- The loop over the links keeps the cache bounded by `H` and the attached
children bounded by `h` when every child traversal does. -/
theorem crawlChildren_bound (w : Env) (q : CrawlQuery) (d : Int) (H h : Nat)
    (hrec : ∀ (c0 : Crawler) (s : String) (out : Out), cacheLE c0 H →
      Crawl w c0 ⟨s, q.MaxDepth, 0⟩ (d + 1) = some out →
      out.2.1.height ≤ h ∧ cacheLE out.1 H) :
    ∀ (links : List Link) (c : Crawler) (site : Site) (res : Crawler × Site),
      cacheLE c H → (∀ x ∈ site.Sites, x.height ≤ h) →
      crawlChildren (Crawl w) q d c site links = some res →
      cacheLE res.1 H ∧ ∀ x ∈ res.2.Sites, x.height ≤ h := by
  intro links
  induction links with
  | nil =>
    intro c site res hc hs hres
    rw [crawlChildren_nil] at hres
    simp only [Option.some.injEq] at hres
    rw [← hres]
    exact ⟨hc, hs⟩
  | cons link rest ih =>
    intro c site res hc hs hres
    rw [crawlChildren_cons] at hres
    obtain ⟨out, hout⟩ := Crawl_isSome w
      { c with history := c.history ++ [Event.spawn link.URL.String (d + 1)] }
      ⟨link.URL.String, q.MaxDepth, 0⟩ (d + 1)
    have hchild := hrec _ _ out (cacheLE_history c _ H hc) hout
    obtain ⟨c1, s, err⟩ := out
    cases err with
    | none =>
      simp only [crawlChild, hout] at hres
      refine ih c1 _ res hchild.2 ?_ hres
      intro x hx
      simp only [Site.AppendSite, Site.setSites, Site.Sites, List.mem_append,
        List.mem_singleton] at hx
      rcases hx with hx | hx
      · exact hs x hx
      · rw [hx, height_setData]
        exact hchild.1
    | some e =>
      simp only [crawlChild, hout] at hres
      exact ih c1 _ res hchild.2 hs hres

/-- The second half of `Crawl` returns a node of height at most `h + 1` when
every child traversal returns a node of height at most `h`, and keeps the cache
bounded by `H` when `h + 1 ≤ H`. -/
theorem crawlPage_bound (w : Env) (q : CrawlQuery) (d : Int) (H h : Nat)
    (hrec : ∀ (c0 : Crawler) (s : String) (out : Out), cacheLE c0 H →
      Crawl w c0 ⟨s, q.MaxDepth, 0⟩ (d + 1) = some out →
      out.2.1.height ≤ h ∧ cacheLE out.1 H)
    (c : Crawler) (u : URL) (resp : Response) (out : Out) (hc : cacheLE c H)
    (hout : crawlPage w (Crawl w) q d c u resp = some out) :
    out.2.1.height ≤ h + 1 ∧ (h + 1 ≤ H → cacheLE out.1 H) := by
  unfold crawlPage at hout
  by_cases hweb : IsWebpage resp = true
  · simp only [hweb, Bool.not_true, Bool.false_eq_true, if_false] at hout
    cases hlinks : GetLinks w u resp (d + 1) with
    | error e =>
      simp only [hlinks, Option.some.injEq] at hout
      rw [← hout]
      exact ⟨by simp [height_zero], fun _ => cacheLE_history c _ H hc⟩
    | ok links =>
      simp only [hlinks] at hout
      cases hch : crawlChildren (Crawl w) q d
          { c with history := c.history ++ [Event.extract u.String] }
          (Site.mk true (w.NewLink u "" u.String d) [])
          ((w.mapOrder (c.history ++ [Event.extract u.String]) links).map Prod.snd) with
      | none => simp [hch] at hout
      | some res =>
        simp only [hch, Option.some.injEq] at hout
        obtain ⟨hcf, hsites⟩ := crawlChildren_bound w q d H h hrec _ _ _ res
          (cacheLE_history c _ H hc) (by simp [Site.Sites]) hch
        have hheight : (res.2.setSites (sortSort w.sortLong res.2.Sites)).height ≤ h + 1 := by
          rw [height_setSites, heightList_perm (sortSort_spec w.sortLong res.2.Sites).1,
            heightList_le_succ]
          exact hsites
        rw [← hout]
        exact ⟨hheight, fun hle => cacheLE_put res.1 u _ H hcf (le_trans hheight hle)⟩
  · have hnot : IsWebpage resp = false := by simpa using hweb
    simp only [hnot, Bool.not_false, if_true, Option.some.injEq] at hout
    rw [← hout]
    exact ⟨by simp [height_zero], fun _ => hc⟩

/-- One level of `Crawl`: with the cache bounded by `H` and the child
traversals bounded by `h`, the returned node has height at most
`max H (h + 1)`. -/
theorem Crawl_bound_step (w : Env) (c : Crawler) (q : CrawlQuery) (d : Int) (H h : Nat)
    (hrec : d < effectiveMaxDepth q → ∀ (c0 : Crawler) (s : String) (out : Out), cacheLE c0 H →
      Crawl w c0 ⟨s, effectiveMaxDepth q, 0⟩ (d + 1) = some out →
      out.2.1.height ≤ h ∧ cacheLE out.1 H)
    (out : Out) (hc : cacheLE c H) (hout : Crawl w c q d = some out) :
    out.2.1.height ≤ max H (h + 1) ∧ (h + 1 ≤ H → cacheLE out.1 H) := by
  rw [Crawl_unfold] at hout
  unfold crawlBody at hout
  simp only at hout
  have hzero : ∀ (c1 : Crawler) (e : Option String), cacheLE c1 H →
      some (c1, Site.zero, e) = some out →
      out.2.1.height ≤ max H (h + 1) ∧ (h + 1 ≤ H → cacheLE out.1 H) := by
    intro c1 e hc1 heq
    simp only [Option.some.injEq] at heq
    rw [← heq]
    exact ⟨by simp [height_zero], fun _ => hc1⟩
  split at hout
  · exact hzero c none hc hout
  · rename_i hd
    have hlt : d < effectiveMaxDepth q := by
      rw [withDefaultDepth_MaxDepth] at hd
      omega
    split at hout
    · exact hzero c _ hc hout
    · split at hout
      · exact hzero c _ hc hout
      · rename_i siteURL _
        split at hout
        · rename_i visited hhit
          simp only [Option.some.injEq] at hout
          rw [← hout]
          have hv := hc _ _ (GetSiteFromCache_hit c siteURL visited hhit)
          exact ⟨le_trans hv (le_max_left _ _), fun _ => hc⟩
        · split at hout
          · rename_i c1 _ _ hF
            have hc1 : cacheLE c1 H := by
              have h1 : c1 = (Fetch w c siteURL).1 := by rw [hF]
              rw [h1, Fetch_crawler]
              exact hc
            exact hzero c1 _ hc1 hout
          · rename_i c1 u1 resp hF
            have hc1 : cacheLE c1 H := by
              have h1 : c1 = (Fetch w c siteURL).1 := by rw [hF]
              rw [h1, Fetch_crawler]
              exact hc
            have hpage := crawlPage_bound w (withDefaultDepth q) d H h
              (by rw [withDefaultDepth_MaxDepth]; exact hrec hlt) c1 u1 resp out hc1 hout
            exact ⟨le_trans hpage.1 (le_max_right _ _), hpage.2⟩

/-- At the last level below the bound every child traversal is truncated: the
returned node has height at most `H` and is either taken from the cache or has
only leaves as children, and the cache stays bounded by `H ≥ 1`. -/
theorem Crawl_last_level (w : Env) (c : Crawler) (q : CrawlQuery) (d : Int) (H : Nat)
    (hd : d + 1 ≥ effectiveMaxDepth q) (hH : 1 ≤ H) (out : Out) (hc : cacheLE c H)
    (hout : Crawl w c q d = some out) :
    out.2.1.height ≤ H ∧ cacheLE out.1 H := by
  have hstep := Crawl_bound_step w c q d H 0 (by
    intro _ c0 s out0 hc0 hout0
    have hge : d + 1 ≥ (if (⟨s, effectiveMaxDepth q, 0⟩ : CrawlQuery).MaxDepth = 0 then 2
        else (⟨s, effectiveMaxDepth q, 0⟩ : CrawlQuery).MaxDepth) := by
      show d + 1 ≥ (if effectiveMaxDepth q = 0 then 2 else effectiveMaxDepth q)
      rw [if_neg (effectiveMaxDepth_ne_zero q)]
      exact hd
    rw [Crawl_of_depth_ge w c0 _ (d + 1) hge] at hout0
    simp only [Option.some.injEq] at hout0
    rw [← hout0]
    exact ⟨by simp [height_zero], hc0⟩) out hc hout
  refine ⟨?_, hstep.2 (by omega)⟩
  have h1 := hstep.1
  rw [max_eq_left (by omega)] at h1
  exact h1

/-- Two levels below the bound, on a cache whose subtrees have height at most
one, the returned node has height at most two. -/
theorem Crawl_two_levels (w : Env) (c : Crawler) (q : CrawlQuery) (d : Int)
    (hd : d + 2 ≥ effectiveMaxDepth q) (out : Out) (hc : cacheLE c 1)
    (hout : Crawl w c q d = some out) : out.2.1.height ≤ 2 := by
  have hstep := Crawl_bound_step w c q d 1 1 (by
    intro _ c0 s out0 hc0 hout0
    exact Crawl_last_level w c0 ⟨s, effectiveMaxDepth q, 0⟩ (d + 1) 1
      (by rw [effectiveMaxDepth_child]; omega) (le_refl 1) out0 hc0 hout0) out hc hout
  simpa using hstep.1

/-- With an effective `MaxDepth` of at most 2, a top-level `Crawl` on a fresh
crawler returns a tree of height at most the effective `MaxDepth`. -/
theorem Crawl_height_le (w : Env) (query : CrawlQuery)
    (hM : effectiveMaxDepth query ≤ 2) (out : Out) (hout : Crawl w NewCrawler query 0 = some out) :
    out.2.1.height ≤ (effectiveMaxDepth query).toNat := by
  have hne := effectiveMaxDepth_ne_zero query
  by_cases h0 : effectiveMaxDepth query < 0
  · have hge : (0 : Int) ≥ (if query.MaxDepth = 0 then 2 else query.MaxDepth) := by
      have h1 : effectiveMaxDepth query = (if query.MaxDepth = 0 then 2 else query.MaxDepth) := rfl
      rw [← h1]
      omega
    rw [Crawl_of_depth_ge w NewCrawler query 0 hge] at hout
    simp only [Option.some.injEq] at hout
    rw [← hout]
    simp [height_zero]
  · by_cases h1 : effectiveMaxDepth query = 1
    · have hl := Crawl_last_level w NewCrawler query 0 1 (by omega) (le_refl 1) out
        (cacheLE_NewCrawler 1) hout
      rw [h1]
      exact hl.1
    · have h2 : effectiveMaxDepth query = 2 := by omega
      have hl := Crawl_two_levels w NewCrawler query 0 (by omega) out (cacheLE_NewCrawler 1) hout
      rw [h2]
      exact hl

/-- With an effective `MaxDepth` `M` (`query.MaxDepth`, or 2 when it is 0) of
at most 2 the visited cache cannot break the depth bound: for every environment
(link graph and order of the child traversals) the top-level call
`Crawl(query, 0)` on a freshly constructed crawler returns a tree all of whose
nodes lie at most `M` link hops below the root, because a cached subtree has
height at most 1 and is only returned at depth 1. -/
theorem sitemap_depth_bounded (w : Env) (query : CrawlQuery)
    (hM : (if query.MaxDepth = 0 then 2 else query.MaxDepth) ≤ 2) :
    ∃ (after : Crawler) (site : Site) (err : Option String),
      Crawl w NewCrawler query 0 = some (after, site, err) ∧
      site.height ≤ (if query.MaxDepth = 0 then 2 else query.MaxDepth).toNat := by
  obtain ⟨out, hout⟩ := Crawl_isSome w NewCrawler query 0
  exact ⟨out.1, out.2.1, out.2.2, hout, Crawl_height_le w query hM out hout⟩

theorem sitemap_depth_bounded_witness :
    (if (⟨"http://s.test", 2, 0⟩ : CrawlQuery).MaxDepth = 0 then 2
      else (⟨"http://s.test", 2, 0⟩ : CrawlQuery).MaxDepth) ≤ 2 ∧
    ∃ (after : Crawler) (site : Site) (err : Option String),
      Crawl cycleEnv NewCrawler ⟨"http://s.test", 2, 0⟩ 0 = some (after, site, err) ∧
      site.height ≤ (if (⟨"http://s.test", 2, 0⟩ : CrawlQuery).MaxDepth = 0 then 2
        else (⟨"http://s.test", 2, 0⟩ : CrawlQuery).MaxDepth).toNat :=
  ⟨by decide, sitemap_depth_bounded cycleEnv ⟨"http://s.test", 2, 0⟩ (by decide)⟩

/-- The node that `Crawl` returns for a target below the bound that is valid,
not cached, fetched, HTML and parsed: the page node of the child runs. -/
theorem Crawl_page_node (w : Env) (crawler : Crawler) (query : CrawlQuery) (depth : Int)
    (u : URL) (resp : Response) (links : List (String × Link))
    (hd : depth < (if query.MaxDepth = 0 then 2 else query.MaxDepth))
    (hv : Validate w query = (true, none))
    (hp : w.urlParse query.Site = .ok u)
    (hc : (GetSiteFromCache crawler u).2 ≠ none)
    (hf : (Fetch w crawler u).2.2 = .ok resp)
    (hweb : IsWebpage resp = true)
    (hlinks : GetLinks w (Fetch w crawler u).2.1 resp (depth + 1) = .ok links) :
    ∃ after, Crawl w crawler query depth =
      some (after, pageNode w (effectiveMaxDepth query) depth (Fetch w crawler u).1
        (Fetch w crawler u).2.1 links, none) := by
  obtain ⟨cfinal, hpage⟩ := crawlPage_of_links w (withDefaultDepth query) depth
    (Fetch w crawler u).1 (Fetch w crawler u).2.1 resp links hweb hlinks
  rw [withDefaultDepth_MaxDepth] at hpage
  rw [Crawl_of_fetched w crawler query depth u resp hd hv hp hc hf, hpage]
  exact ⟨_, rfl⟩

/-- The run on the cyclic site with `MaxDepth = 3` that traverses `/x` before
`/y`: the subtree of `/x`, stored at depth 1 with height 2, is returned from
the cache for the child of `/y` at depth 2. -/
theorem cycle_forward_run :
    (Crawl cycleEnv NewCrawler ⟨"http://s.test", 3, 0⟩ 0).map (fun out => (out.2.1, out.2.2)) =
      some (cycleTreeForward, none) := by
  obtain ⟨after, hrun⟩ := Crawl_page_node cycleEnv NewCrawler ⟨"http://s.test", 3, 0⟩ 0
    ⟨"http", "s.test", ""⟩ (htmlPage "R") cycleRootLinks (by decide) (by decide) rfl (by decide)
    rfl (by decide) rfl
  have hruns : attachedNodes (childRuns cycleEnv
      (effectiveMaxDepth ⟨"http://s.test", 3, 0⟩) 0
      (loopStart (Fetch cycleEnv NewCrawler ⟨"http", "s.test", ""⟩).1
        (Fetch cycleEnv NewCrawler ⟨"http", "s.test", ""⟩).2.1)
      (scheduledLinks cycleEnv (Fetch cycleEnv NewCrawler ⟨"http", "s.test", ""⟩).1
        (Fetch cycleEnv NewCrawler ⟨"http", "s.test", ""⟩).2.1 cycleRootLinks)) =
      [cycleNode true "x" "/x" 1
        [cycleNode true "x" "/x" 2 [cycleNode false "x" "/x" 3 []]],
       cycleNode true "y" "/y" 1
        [cycleNode true "x" "/x" 2
          [cycleNode true "x" "/x" 2 [cycleNode false "x" "/x" 3 []]]]] := rfl
  have hxy : ¬ "y" < "x" := by
    rw [String.lt_iff_toList_lt]
    decide
  rw [hrun]
  simp only [Option.map, pageNode, hruns]
  rw [sortSort_pair _ _ _ (by simpa [cycleNode, Site.Data] using hxy)]
  rfl

/-- C11: the code breaks the depth bound through the visited cache.  With
`MaxDepth = 3` on the cyclic site the root links to `/x` and `/y`, `/x` links
to itself and `/y` links to `/x`.  The traversal of `/x` at depth 1 stores a
subtree of height 2 in the visited cache; the traversal of `/y` at depth 1 then
gets that subtree from the cache for its child at depth 2, so the returned tree
has a node 4 link hops below the root. -/
theorem cached_subtree_exceeds_depth_bound :
    (if (⟨"http://s.test", 3, 0⟩ : CrawlQuery).MaxDepth = 0 then 2
      else (⟨"http://s.test", 3, 0⟩ : CrawlQuery).MaxDepth) = 3 ∧
    (Crawl cycleEnv NewCrawler ⟨"http://s.test", 3, 0⟩ 0).map (fun out => (out.2.1, out.2.2)) =
      some (Site.mk true ⟨⟨"http", "s.test", ""⟩, "", "http://s.test", 0⟩
        [cycleNode true "x" "/x" 1
          [cycleNode true "x" "/x" 2 [cycleNode false "x" "/x" 3 []]],
         cycleNode true "y" "/y" 1
          [cycleNode true "x" "/x" 2
            [cycleNode true "x" "/x" 2 [cycleNode false "x" "/x" 3 []]]]], none) ∧
    (Site.mk true ⟨⟨"http", "s.test", ""⟩, "", "http://s.test", 0⟩
        [cycleNode true "x" "/x" 1
          [cycleNode true "x" "/x" 2 [cycleNode false "x" "/x" 3 []]],
         cycleNode true "y" "/y" 1
          [cycleNode true "x" "/x" 2
            [cycleNode true "x" "/x" 2 [cycleNode false "x" "/x" 3 []]]]]).height = 4 :=
  ⟨by decide, cycle_forward_run, by decide⟩

/-! ## Termination on cyclic link graphs -/

/-- On the two pages `/p` and `/q` that link to each other, `Crawl` with
`MaxDepth = 3` follows the cycle for three hops and stops. -/
theorem Crawl_two_cycle :
    (Crawl cycleEnv NewCrawler ⟨"http://s.test/p", 3, 0⟩ 0).map (fun out => (out.2.1, out.2.2)) =
      some (Site.mk true ⟨⟨"http", "s.test", "/p"⟩, "", "http://s.test/p", 0⟩
        [cycleNode true "q" "/q" 1
          [cycleNode true "p" "/p" 2 [cycleNode false "q" "/q" 3 []]]], none) :=
  rfl

/-- On the page `/x` that links to itself, `Crawl` with the default `MaxDepth`
follows the link for two hops and stops. -/
theorem Crawl_self_link :
    (Crawl cycleEnv NewCrawler ⟨"http://s.test/x", 0, 0⟩ 0).map (fun out => (out.2.1, out.2.2)) =
      some (Site.mk true ⟨⟨"http", "s.test", "/x"⟩, "", "http://s.test/x", 0⟩
        [cycleNode true "x" "/x" 1 [cycleNode false "x" "/x" 2 []]], none) :=
  rfl

/-- C12: `Crawl` terminates on every environment, cyclic link graphs and
self-links included.  It returns a result for every crawler, query and depth,
and any bound on the nesting of recursive calls above
`effective MaxDepth - depth` gives that same result.  The body of `Crawl`
consults the recursive call only at `depth + 1` with the effective `MaxDepth`
as the child's `MaxDepth`, and only when `depth` is below the effective
`MaxDepth`; at or beyond it the body returns without any call.  Along a
recursive call the quantity `effective MaxDepth - depth` strictly decreases. -/
theorem Crawl_terminates (w : Env) (crawler : Crawler) (query : CrawlQuery) (depth : Int) :
    (∃ out, Crawl w crawler query depth = some out) ∧
    (∀ fuel : Nat, (effectiveMaxDepth query - depth).toNat < fuel →
      crawlFuel w fuel crawler query depth = Crawl w crawler query depth) ∧
    (∀ r1 r2 : Crawler → CrawlQuery → Int → Option Out,
      (depth < effectiveMaxDepth query → ∀ (c : Crawler) (s : String),
        r1 c ⟨s, effectiveMaxDepth query, 0⟩ (depth + 1) =
          r2 c ⟨s, effectiveMaxDepth query, 0⟩ (depth + 1)) →
      crawlBody w r1 crawler query depth = crawlBody w r2 crawler query depth) ∧
    (depth ≥ effectiveMaxDepth query → ∀ r : Crawler → CrawlQuery → Int → Option Out,
      crawlBody w r crawler query depth = some (crawler, Site.zero, none)) ∧
    (depth < effectiveMaxDepth query → ∀ s : String,
      effectiveMaxDepth ⟨s, effectiveMaxDepth query, 0⟩ = effectiveMaxDepth query ∧
      (effectiveMaxDepth ⟨s, effectiveMaxDepth query, 0⟩ - (depth + 1)).toNat <
        (effectiveMaxDepth query - depth).toNat) := by
  refine ⟨Crawl_isSome w crawler query depth, ?_, ?_, ?_, ?_⟩
  · intro fuel hfuel
    exact crawlFuel_stable w fuel _ crawler query depth hfuel (Nat.lt_succ_self _)
  · intro r1 r2 h
    exact crawlBody_congr w crawler query depth h
  · intro hd r
    have hd0 : depth ≥ (withDefaultDepth query).MaxDepth := by
      rw [withDefaultDepth_MaxDepth]
      exact hd
    simp only [crawlBody, hd0, if_true]
  · intro hd s
    rw [effectiveMaxDepth_child]
    exact ⟨rfl, by omega⟩

/-! ## Order of siblings across runs -/

end crawler
